import Mathlib

/-!
# ppmview: the PPM codec of `src/ppm.c`

A shallow embedding of `loadPpm` and `writePpm` (`src/ppm.c`) and of the record `ppm_t`
(`src/ppm.h`), followed by theorems about them.

Conventions of the embedding.

* A byte is a `Nat` (a value `0 .. 255`); a file is the list of its bytes. The theorems that
  quantify over byte lists hold for every list of naturals, hence for every list of bytes.
  The only bytes the code tells apart are `#`, `P`, `6`, the digits and the whitespace of
  `isspace` in the C locale.
* `unsigned int` is a `Nat` kept below `2 ^ 32` by an explicit `% UINT_MOD` wherever the C code
  computes a new value.
* `ssize_t lineIndex` is an `Int`: the header loop decrements it (`lineIndex--`) before the
  `for` statement increments it again.
* `stderr` is the list of the messages written to it, oldest first, one constructor of `Msg`
  for each `fprintf (stderr, ...)` of the source.
* The two loops of `loadPpm` run on fuel. The fuel that the embedding hands to them is enough,
  and more fuel never changes a result: `forLoop_fuel` and `forLoop_enough` for the `for`
  loop, `headerLoop_fuel` and `headerLoop_enough` for the `while` loop.
* The field `filename` of `ppm_t` (a copy of the path, never read by the codec) is left out,
  and the result of `fopen` is the argument of `loadPpm`: `none` when the file cannot be
  opened, `some bytes` otherwise. `writePpm` is the function on an opened file: the bytes it
  writes and the messages it prints.
-/

namespace Ppm

/-! ## Data model -/

/-- The enum `ppm_header_section` of `ppm.c`. -/
inductive Section where
  | MAGIC_NUMBER
  | WHITESPACE1
  | WIDTH
  | WHITESPACE2
  | HEIGHT
  | WHITESPACE3
  | MAX_COLOR_VAL
  | WHITESPACE_CHAR
  | END
  deriving DecidableEq, Repr

/-- The numeric value of an enum constant (C enums are sequential). -/
def Section.toNat : Section → Nat
  | .MAGIC_NUMBER => 0
  | .WHITESPACE1 => 1
  | .WIDTH => 2
  | .WHITESPACE2 => 3
  | .HEIGHT => 4
  | .WHITESPACE3 => 5
  | .MAX_COLOR_VAL => 6
  | .WHITESPACE_CHAR => 7
  | .END => 8

/-- The statement `section++`. It is never executed in section `END`. -/
def Section.succ : Section → Section
  | .MAGIC_NUMBER => .WHITESPACE1
  | .WHITESPACE1 => .WIDTH
  | .WIDTH => .WHITESPACE2
  | .WHITESPACE2 => .HEIGHT
  | .HEIGHT => .WHITESPACE3
  | .WHITESPACE3 => .MAX_COLOR_VAL
  | .MAX_COLOR_VAL => .WHITESPACE_CHAR
  | .WHITESPACE_CHAR => .END
  | .END => .END

/-- The messages `ppm.c` writes to `stderr`, one constructor for each `fprintf (stderr, ...)`. -/
inductive Msg where
  /-- The text "Error, file should start with P6, got ... instead" of `loadPpm`. -/
  | badMagic
  /-- The text "Error, expected space but didn't find one" of `loadPpm`. -/
  | expectedSpace
  /-- The text "Unexpected end of the world" of `loadPpm`. -/
  | unexpectedEnd
  /-- The text "Only 'base 255' color scales are supported right now" of `loadPpm`. -/
  | unsupportedScale
  /-- The text "Read the wrong number of pixels.." of `loadPpm`. -/
  | wrongPixelCount
  /-- The text "Error writing new image!" of `writePpm`. -/
  | writeError
  deriving DecidableEq, Repr

/-- The struct `ppm_t` of `ppm.h`, without `filename`. `pixels` holds the bytes of the buffer
that were written by `fread`. -/
structure ppm_t where
  width : Nat
  height : Nat
  pixels : List Nat
  max_color : Nat
  deriving DecidableEq, Repr

/-- The modulus of `unsigned int` arithmetic. -/
def UINT_MOD : Nat := 4294967296

/-- The locals of `loadPpm` that the header loop updates (`section`, `img->width`,
`img->height`, `max_color`) together with what was written to `stderr`. -/
structure Hdr where
  sect : Section
  width : Nat
  height : Nat
  max_color : Nat
  err : List Msg
  deriving DecidableEq, Repr

/-- One `fprintf (stderr, ...)`. -/
def Hdr.warn (s : Hdr) (m : Msg) : Hdr := { s with err := s.err ++ [m] }

/-- The locals after the initialisations at the top of `loadPpm`. -/
def Hdr.init : Hdr :=
  { sect := .MAGIC_NUMBER, width := 0, height := 0, max_color := 0, err := [] }

/-! ## `loadPpm` -/

/-- The function `isspace` of `ctype.h` in the C locale: space, `\t`, `\n`, `\v`, `\f`, `\r`. -/
def isspace (c : Nat) : Bool := c == 32 || (9 ≤ c && c ≤ 13)

/-- The function `isdigit` of `ctype.h`. -/
def isdigit (c : Nat) : Bool := 48 ≤ c && c ≤ 57

/-- The call `getline (&line, &ignored, f)`: the bytes up to and including the next newline,
or up to the end of the file; `none` (the C result `-1`) at the end of the file. The second
component is what is left of the file. -/
def getline : List Nat → Option (List Nat × List Nat)
  | [] => none
  | c :: cs =>
    if c = 10 then some ([c], cs)
    else
      match getline cs with
      | none => some ([c], [])
      | some (l, r) => some (c :: l, r)

/-- The `switch (section)` statement in the body of the `for` loop: from the line, the index
and the locals to the index and the locals after the `switch`. -/
def switchBody (line : List Nat) (lineIndex : Int) (s : Hdr) : Int × Hdr :=
  let c := line.getD lineIndex.toNat 0
  match s.sect with
  | .MAGIC_NUMBER =>
    let s1 :=
      if line.length < 2 ∨ line.getD 0 0 ≠ 80 ∨ line.getD 1 0 ≠ 54 then s.warn .badMagic else s
    (lineIndex + 1, { s1 with sect := s1.sect.succ })
  | .WHITESPACE1 | .WHITESPACE2 | .WHITESPACE3 =>
    if ¬ isspace c then (lineIndex - 1, { s with sect := s.sect.succ })
    else (lineIndex, s)
  | .WIDTH =>
    if ¬ isdigit c then (lineIndex - 1, { s with sect := s.sect.succ })
    else (lineIndex, { s with width := (10 * s.width + c - 48) % UINT_MOD })
  | .HEIGHT =>
    if ¬ isdigit c then (lineIndex - 1, { s with sect := s.sect.succ })
    else (lineIndex, { s with height := (10 * s.height + c - 48) % UINT_MOD })
  | .MAX_COLOR_VAL =>
    if ¬ isdigit c then (lineIndex - 1, { s with sect := s.sect.succ })
    else (lineIndex, { s with max_color := (10 * s.max_color + c - 48) % UINT_MOD })
  | .WHITESPACE_CHAR =>
    let s1 := if ¬ isspace c then s.warn .expectedSpace else s
    (lineIndex, { s1 with sect := s1.sect.succ })
  | .END => (lineIndex, s.warn .unexpectedEnd)

/-- The loop `for (lineIndex = ...; lineIndex < lineLength; lineIndex++)` of `loadPpm`, entered
with the given value of `lineIndex`: a `#` leaves the loop (`break`), any other byte goes
through the `switch`. -/
def forLoop : Nat → List Nat → Int → Hdr → Hdr
  | 0, _, _, s => s
  | fuel + 1, line, lineIndex, s =>
    if lineIndex < (line.length : Int) then
      if line.getD lineIndex.toNat 0 = 35 then s
      else
        let r := switchBody line lineIndex s
        forLoop fuel line (r.1 + 1) r.2
    else s

/-- Fuel that is enough for the `for` loop over a whole line: every iteration moves the index
forward or the section forward. -/
def lineFuel (line : List Nat) : Nat := line.length + 8

/-- The loop `while (section != END && (lineLength = getline (...)) >= 0)` of `loadPpm`.
The result is the locals and the part of the file that `getline` has not read. -/
def headerLoop : Nat → List Nat → Hdr → Hdr × List Nat
  | 0, file, s => (s, file)
  | fuel + 1, file, s =>
    if s.sect = .END then (s, file)
    else
      match getline file with
      | none => (s, file)
      | some (line, rest) => headerLoop fuel rest (forLoop (lineFuel line) line 0 s)

/-- The header loop on a whole file (every `getline` takes at least one byte, so the length
of the file is enough fuel). -/
def parseHeader (file : List Nat) (s : Hdr) : Hdr × List Nat :=
  headerLoop file.length file s

/-- The size `img->width * img->height * 3`, computed in `unsigned int`. -/
def pixelCount (width height : Nat) : Nat := (width * height * 3) % UINT_MOD

/-- The function `loadPpm`. The argument is the result of `fopen`; the result is the image
and what was written to `stderr`, or `none` for the C result `NULL`. -/
def loadPpm (f : Option (List Nat)) : Option (ppm_t × List Msg) :=
  match f with
  | none => none
  | some file =>
    let h := parseHeader file Hdr.init
    let s := h.1
    let s1 := if s.max_color ≠ 255 then s.warn .unsupportedScale else s
    let max_color := (if s.max_color ≠ 255 then 255 else s.max_color) % 256
    let n := pixelCount s.width s.height
    let pixels := h.2.take n
    let s2 := if pixels.length ≠ n then s1.warn .wrongPixelCount else s1
    some ({ width := s.width, height := s.height, pixels := pixels, max_color := max_color },
      s2.err)

/-! ## `writePpm` -/

/-- The bytes of a string literal of the source. -/
def bytes (s : String) : List Nat := s.toList.map Char.toNat

/-- The decimal digits of a natural number, most significant first, as bytes. -/
def decimal (n : Nat) : List Nat := (Nat.toDigits 10 n).map Char.toNat

/-- The conversion `%d` of `fprintf` applied to an `unsigned int`: the 32 bits are printed as
a signed `int`. -/
def fmt_d (v : Nat) : List Nat :=
  if v < 2147483648 then decimal v else 45 :: decimal (UINT_MOD - v)

/-- The function `writePpm`: the bytes written to the file and the messages written to
`stderr`. -/
def writePpm (img : ppm_t) : List Nat × List Msg :=
  let n := pixelCount img.width img.height
  let written := img.pixels.take n
  (bytes "P6\n#Created with ppmview: euank@euank.com\n" ++ fmt_d img.width ++ [32]
      ++ fmt_d img.height ++ [10] ++ fmt_d 255 ++ [10] ++ written,
    if written.length ≠ n then [Msg.writeError] else [])

/-! ## Definitions used in the statements and proofs -/

/-- The number of iterations the `for` loop can still make: the bytes left in the line plus
the sections left. -/
def loopMeasure (line : List Nat) (i : Int) (s : Hdr) : Nat :=
  ((line.length : Int) - i).toNat + (8 - s.sect.toNat)

/-- The `switch` statement seen from the byte it looks at, for the sections after the magic
number: the change of `lineIndex` (`0`, or `-1` for a rewind) and the new locals. -/
def byteStep (c : Nat) (s : Hdr) : Int × Hdr := switchBody [c] 0 s

/-- The `for` loop over one whole line, as `headerLoop` runs it. -/
def runLine (line : List Nat) (s : Hdr) : Hdr := forLoop (lineFuel line) line 0 s

/-- The locals after the `MAGIC_NUMBER` case on a line that starts with the bytes `a`, `b`. -/
def afterMagic (a b : Nat) (s : Hdr) : Hdr :=
  { (if a = 80 ∧ b = 54 then s else s.warn .badMagic) with sect := .WHITESPACE1 }

/-- What `getline` leaves of the file: the bytes after the next newline. -/
def afterLine (bs : List Nat) : List Nat :=
  match getline bs with
  | none => []
  | some p => p.2

/-- What `getline` takes from the file: the bytes up to and including the next newline. -/
def firstLine (bs : List Nat) : List Nat :=
  match getline bs with
  | none => []
  | some p => p.1

/-- The sections that skip whitespace. -/
def Section.isWs : Section → Bool
  | .WHITESPACE1 | .WHITESPACE2 | .WHITESPACE3 => true
  | _ => false

/-- The sections that read a number. -/
def Section.isNum : Section → Bool
  | .WIDTH | .HEIGHT | .MAX_COLOR_VAL => true
  | _ => false

/-- The `else` branch of the cases `WIDTH`, `HEIGHT` and `MAX_COLOR_VAL`: one more digit. -/
def Hdr.addDigit (s : Hdr) (c : Nat) : Hdr :=
  match s.sect with
  | .WIDTH => { s with width := (10 * s.width + c - 48) % UINT_MOD }
  | .HEIGHT => { s with height := (10 * s.height + c - 48) % UINT_MOD }
  | .MAX_COLOR_VAL => { s with max_color := (10 * s.max_color + c - 48) % UINT_MOD }
  | _ => s

/-- The number read from a run of digits in `unsigned int` arithmetic, starting from `v`. -/
def accum (v : Nat) (ds : List Nat) : Nat :=
  ds.foldl (fun a c => (10 * a + c - 48) % UINT_MOD) v

/-- The decimal value of a run of digits. -/
def digitsVal (ds : List Nat) : Nat := ds.foldl (fun a c => 10 * a + (c - 48)) 0

/-- The locals after the case `WHITESPACE_CHAR` has looked at the byte `c`. -/
def afterWsChar (c : Nat) (s : Hdr) : Hdr :=
  { (if isspace c = true then s else s.warn .expectedSpace) with sect := .END }

/-- What `loadPpm` has written to `stderr` after the magic number `a`, `b`. -/
def magicErr (a b : Nat) : List Msg := if a = 80 ∧ b = 54 then [] else [Msg.badMagic]

/-- The locals at the end of a header with the digit runs `W`, `H`, `M` that ends with the
byte `c`, when `e` was written to `stderr` before the width. -/
def doneHdr (e : List Msg) (W H M : List Nat) (c : Nat) : Hdr :=
  { sect := .END, width := accum 0 W, height := accum 0 H, max_color := accum 0 M,
    err := e ++ (if isspace c = true then [] else [Msg.expectedSpace]) }

/-- The messages of the header loop after the magic number. -/
def Msg.isHeaderTail : Msg → Bool
  | .expectedSpace | .unexpectedEnd => true
  | _ => false

/-- The locals with `p` written to `stderr` before everything else. -/
def Hdr.pre (p : List Msg) (s : Hdr) : Hdr := { s with err := p ++ s.err }

/-- What `loadPpm` writes to `stderr` after the header loop, for the locals `s` and the
unread part `rest` of the file. -/
def tailErr (s : Hdr) (rest : List Nat) : List Msg :=
  (if s.max_color ≠ 255 then [Msg.unsupportedScale] else [])
    ++ (if (rest.take (pixelCount s.width s.height)).length ≠ pixelCount s.width s.height
        then [Msg.wrongPixelCount] else [])

/-- The file of the canonical layout: `P6`, newline, width, space, height, newline, `255`,
newline, pixel bytes. -/
def canonicalFile (w h : Nat) (p : List Nat) : List Nat :=
  bytes "P6\n" ++ decimal w ++ bytes " " ++ decimal h ++ bytes "\n255\n" ++ p

/-- A non-empty run of whitespace bytes. -/
def spaceRun (l : List Nat) : Prop := l ≠ [] ∧ ∀ x ∈ l, isspace x = true

/-- A non-empty run of decimal digits. -/
def digitRun (l : List Nat) : Prop := l ≠ [] ∧ ∀ x ∈ l, isdigit x = true

instance (l : List Nat) : Decidable (spaceRun l) := by unfold spaceRun; infer_instance

instance (l : List Nat) : Decidable (digitRun l) := by unfold digitRun; infer_instance

/-- A file whose header is `P6`, whitespace `s1`, width digits `W`, whitespace `s2`, height
digits `H`, whitespace `s3`, maximum colour digits `M` and the single byte `c`, followed by
`payload`. -/
def headerFile (s1 W s2 H s3 M : List Nat) (c : Nat) (payload : List Nat) : List Nat :=
  [80, 54] ++ s1 ++ W ++ s2 ++ H ++ s3 ++ M ++ [c] ++ payload

/-- A comment line: `#`, the bytes `body`, a newline. -/
def comment (body : List Nat) : List Nat := 35 :: (body ++ [10])

/-- An image of 65536 by 65536 pixels with all `65536 * 65536 * 3` bytes of its pixel
buffer. -/
def bigImage : ppm_t :=
  { width := 65536, height := 65536, pixels := List.replicate (65536 * 65536 * 3) 0,
    max_color := 255 }

/-- A 2 by 1 image: a red pixel and a green pixel. -/
def smallImage : ppm_t :=
  { width := 2, height := 1, pixels := [255, 0, 0, 0, 255, 0], max_color := 255 }

/-! ## The `for` loop: fuel and line suffixes -/

theorem switchBody_measure (line : List Nat) (i : Int) (s : Hdr)
    (h : i < (line.length : Int)) :
    loopMeasure line ((switchBody line i s).1 + 1) (switchBody line i s).2
      < loopMeasure line i s := by
  rcases s with ⟨sect, w, hh, m, e⟩
  cases sect <;> simp only [switchBody, loopMeasure, Hdr.warn] <;>
    (try split_ifs) <;> simp only [Section.succ, Section.toNat] <;> omega

/-- The index stays non-negative at the head of the `for` loop: a rewind (`lineIndex--`) is
always followed by the increment of the `for` statement, so the loop never reads before the
start of the line. -/
theorem switchBody_index_nonneg (line : List Nat) (i : Int) (s : Hdr) (h : 0 ≤ i) :
    0 ≤ (switchBody line i s).1 + 1 := by
  rcases s with ⟨sect, w, hh, m, e⟩
  cases sect <;> simp only [switchBody, Hdr.warn] <;> (try split_ifs) <;> omega

theorem forLoop_fuel (f1 : Nat) : ∀ (f2 : Nat) (line : List Nat) (i : Int) (s : Hdr),
    loopMeasure line i s ≤ f1 → loopMeasure line i s ≤ f2 →
    forLoop f1 line i s = forLoop f2 line i s := by
  induction f1 with
  | zero =>
    intro f2 line i s h1 _
    have hi : ¬ i < (line.length : Int) := by
      simp only [loopMeasure] at h1; omega
    cases f2 with
    | zero => rfl
    | succ f2 => simp only [forLoop, hi, if_false]
  | succ f1 ih =>
    intro f2 line i s h1 h2
    cases f2 with
    | zero =>
      have hi : ¬ i < (line.length : Int) := by
        simp only [loopMeasure] at h2; omega
      simp only [forLoop, hi, if_false]
    | succ f2 =>
      simp only [forLoop]
      by_cases hi : i < (line.length : Int)
      · simp only [hi, if_true]
        by_cases hc : line.getD i.toNat 0 = 35
        · simp only [hc, if_true]
        · simp only [hc, if_false]
          have hm := switchBody_measure line i s hi
          exact ih f2 line _ _ (by omega) (by omega)
      · simp only [hi, if_false]

theorem switchBody_eq_byteStep (line : List Nat) (i : Int) (s : Hdr)
    (hs : s.sect ≠ .MAGIC_NUMBER) :
    switchBody line i s
      = (i + (byteStep (line.getD i.toNat 0) s).1, (byteStep (line.getD i.toNat 0) s).2) := by
  rcases s with ⟨sect, w, hh, m, e⟩
  cases sect <;> simp only [switchBody, byteStep, Hdr.warn, Int.toNat_zero, List.getD_cons_zero]
    <;> (try split_ifs) <;> simp_all <;> omega

theorem byteStep_idx (c : Nat) (s : Hdr) (hs : s.sect ≠ .MAGIC_NUMBER) :
    (byteStep c s).1 = 0 ∨ (byteStep c s).1 = -1 := by
  rcases s with ⟨sect, w, hh, m, e⟩
  cases sect <;> simp only [switchBody, byteStep, Hdr.warn]
    <;> (try split_ifs) <;> simp_all

theorem byteStep_sect (c : Nat) (s : Hdr) (hs : s.sect ≠ .MAGIC_NUMBER) :
    (byteStep c s).2.sect ≠ .MAGIC_NUMBER := by
  rcases s with ⟨sect, w, hh, m, e⟩
  cases sect <;> simp only [switchBody, byteStep, Hdr.warn]
    <;> (try split_ifs) <;> simp_all [Section.succ]

theorem getD_drop_zero (line : List Nat) (n : Nat) :
    (line.drop n).getD 0 0 = line.getD n 0 := by
  induction line generalizing n with
  | nil => simp
  | cons a l ih =>
    cases n with
    | zero => simp
    | succ n => simp

/-- After the magic number the `for` loop only looks at the bytes from `lineIndex` on. -/
theorem forLoop_drop (f : Nat) : ∀ (line : List Nat) (i : Int) (s : Hdr),
    s.sect ≠ .MAGIC_NUMBER → 0 ≤ i →
    forLoop f line i s = forLoop f (line.drop i.toNat) 0 s := by
  induction f with
  | zero => intro line i s _ _; rfl
  | succ f ih =>
    intro line i s hs hi
    simp only [forLoop]
    have hlen : (i < (line.length : Int)) ↔ ((0 : Int) < ((line.drop i.toNat).length : Int)) := by
      simp only [List.length_drop]; omega
    by_cases h : i < (line.length : Int)
    · have h0 : (0 : Int) < ((line.drop i.toNat).length : Int) := hlen.mp h
      simp only [h, h0, if_true, Int.toNat_zero, getD_drop_zero]
      by_cases hc : line.getD i.toNat 0 = 35
      · simp only [hc, if_true]
      · simp only [hc, if_false]
        rw [switchBody_eq_byteStep line i s hs, switchBody_eq_byteStep _ 0 s hs]
        simp only [Int.toNat_zero, getD_drop_zero]
        have hs2 := byteStep_sect (line.getD i.toNat 0) s hs
        rcases byteStep_idx (line.getD i.toNat 0) s hs with h1 | h1
        · rw [h1]
          rw [ih line _ _ hs2 (by omega), ih (line.drop i.toNat) _ _ hs2 (by omega)]
          rw [List.drop_drop]
          congr 2
          omega
        · rw [h1]
          rw [ih line _ _ hs2 (by omega), ih (line.drop i.toNat) _ _ hs2 (by omega)]
          rw [List.drop_drop]
          congr 2
          omega
    · have h0 : ¬ (0 : Int) < ((line.drop i.toNat).length : Int) := fun hh => h (hlen.mpr hh)
      simp only [h, h0, if_false]

/-- The fuel `lineFuel line` that `headerLoop` gives to the `for` loop is enough: more fuel
gives the same result. -/
theorem forLoop_enough (f : Nat) (line : List Nat) (s : Hdr) (hf : lineFuel line ≤ f) :
    forLoop f line 0 s = forLoop (lineFuel line) line 0 s :=
  forLoop_fuel _ _ _ _ _ (by simp only [loopMeasure, lineFuel] at hf ⊢; omega)
    (by simp only [loopMeasure, lineFuel]; omega)

/-- One iteration of the `for` loop on a byte that is not `#`. -/
theorem forLoop_step (f : Nat) (line : List Nat) (i : Int) (s : Hdr)
    (hi : i < (line.length : Int)) (hc : line.getD i.toNat 0 ≠ 35) :
    forLoop (f + 1) line i s
      = forLoop f line ((switchBody line i s).1 + 1) (switchBody line i s).2 := by
  rw [forLoop]
  simp only [hi, if_true, hc, if_false]

theorem forLoop_hash (f : Nat) (line : List Nat) (i : Int) (s : Hdr)
    (hc : line.getD i.toNat 0 = 35) : forLoop f line i s = s := by
  cases f with
  | zero => rfl
  | succ f =>
    rw [forLoop]
    simp only [hc, if_true, ite_self]

theorem forLoop_done (f : Nat) (line : List Nat) (i : Int) (s : Hdr)
    (hi : ¬ i < (line.length : Int)) : forLoop f line i s = s := by
  cases f with
  | zero => rfl
  | succ f =>
    rw [forLoop]
    simp only [hi, if_false]

theorem runLine_nil (s : Hdr) : runLine [] s = s :=
  forLoop_done _ _ _ _ (by simp)

/-- A `#` at the head of what is left of a line ends the line. -/
theorem runLine_hash (l : List Nat) (s : Hdr) : runLine (35 :: l) s = s :=
  forLoop_hash _ _ _ _ (by simp)

/-- A byte that the `switch` consumes: the loop goes on with the rest of the line. -/
theorem runLine_consume (c : Nat) (l : List Nat) (s t : Hdr) (hc : c ≠ 35)
    (hs : s.sect ≠ .MAGIC_NUMBER) (hb : byteStep c s = (0, t)) :
    runLine (c :: l) s = runLine l t := by
  have hts : t.sect ≠ .MAGIC_NUMBER := by
    have := byteStep_sect c s hs; rw [hb] at this; exact this
  have hf : lineFuel (c :: l) = (l.length + 8) + 1 := by
    simp only [lineFuel, List.length_cons, Nat.add_right_comm]
  rw [runLine, hf, forLoop_step _ _ _ _ (by simp) (by simpa using hc)]
  rw [switchBody_eq_byteStep _ 0 s hs]
  simp only [Int.toNat_zero, List.getD_cons_zero, hb]
  rw [forLoop_drop _ _ _ _ hts (by omega)]
  simp only [zero_add, Int.toNat_one, List.drop_one, List.tail_cons]
  rfl

/-- A byte that ends a section: the loop looks at the same byte again in the next section. -/
theorem runLine_rewind (c : Nat) (l : List Nat) (s t : Hdr) (hc : c ≠ 35)
    (hs : s.sect ≠ .MAGIC_NUMBER) (hb : byteStep c s = (-1, t)) :
    runLine (c :: l) s = runLine (c :: l) t := by
  have hts : 1 ≤ t.sect.toNat := by
    have := byteStep_sect c s hs; rw [hb] at this
    revert this; cases t.sect <;> simp [Section.toNat]
  have hf : lineFuel (c :: l) = (l.length + 8) + 1 := by
    simp only [lineFuel, List.length_cons, Nat.add_right_comm]
  rw [runLine, hf, forLoop_step _ _ _ _ (by simp) (by simpa using hc)]
  rw [switchBody_eq_byteStep _ 0 s hs]
  simp only [Int.toNat_zero, List.getD_cons_zero, hb]
  rw [runLine, hf]
  exact forLoop_fuel _ _ _ _ _ (by simp only [loopMeasure, List.length_cons]; omega)
    (by simp only [loopMeasure, List.length_cons]; omega)

theorem switchBody_magic (a b : Nat) (l : List Nat) (s : Hdr)
    (hs : s.sect = .MAGIC_NUMBER) : switchBody (a :: b :: l) 0 s = (1, afterMagic a b s) := by
  rcases s with ⟨sect, w, hh, m, e⟩
  simp only at hs
  subst hs
  simp only [switchBody, afterMagic, Hdr.warn, Section.succ]
  by_cases hab : a = 80 ∧ b = 54
  · have h2 : ¬ (l.length + 1 + 1 < 2) := by omega
    simp [hab, h2]
  · have h3 : ((a :: b :: l).length < 2 ∨ (a :: b :: l).getD 0 0 ≠ 80
        ∨ (a :: b :: l).getD 1 0 ≠ 54) := by
      by_cases h80 : a = 80
      · right; right; intro h54; exact hab ⟨h80, by simpa using h54⟩
      · right; left; simpa using h80
    simp only [hab, h3, if_true, if_false]
    simp

/-- The magic number takes the first two bytes of its line. -/
theorem runLine_magic (a b : Nat) (l : List Nat) (s : Hdr) (ha : a ≠ 35)
    (hs : s.sect = .MAGIC_NUMBER) :
    runLine (a :: b :: l) s = runLine l (afterMagic a b s) := by
  have hts : (afterMagic a b s).sect ≠ .MAGIC_NUMBER := by simp [afterMagic]
  have hf : lineFuel (a :: b :: l) = (l.length + 9) + 1 := by simp [lineFuel]
  rw [runLine, hf, forLoop_step _ _ _ _ (by simp only [List.length_cons]; omega) (by simpa using ha)]
  rw [switchBody_magic a b l s hs]
  simp only
  rw [forLoop_drop _ _ _ _ hts (by omega)]
  have h2 : ((1 : Int) + 1).toNat = 2 := by decide
  rw [h2]
  simp only [List.drop_succ_cons, List.drop_zero]
  exact forLoop_fuel _ _ _ _ _ (by simp only [loopMeasure, afterMagic, Section.toNat]; omega)
    (by simp only [loopMeasure, afterMagic, Section.toNat, lineFuel]; omega)

/-- A line of one byte in section `MAGIC_NUMBER`: the magic number is reported as bad. -/
theorem runLine_magic_single (a : Nat) (s : Hdr) (ha : a ≠ 35)
    (hs : s.sect = .MAGIC_NUMBER) :
    runLine [a] s = { s.warn .badMagic with sect := .WHITESPACE1 } := by
  rcases s with ⟨sect, w, hh, m, e⟩
  simp only at hs
  subst hs
  have hf : lineFuel [a] = 8 + 1 := by simp [lineFuel]
  rw [runLine, hf, forLoop_step _ _ _ _ (by simp) (by simpa using ha)]
  rw [forLoop_done _ _ _ _ (by simp [switchBody])]
  simp [switchBody, Hdr.warn, Section.succ]

/-! ## The `while` loop: fuel, and the header read byte by byte -/

theorem getline_eq_none (bs : List Nat) : getline bs = none ↔ bs = [] := by
  cases bs with
  | nil => simp [getline]
  | cons c cs =>
    simp only [getline]
    split_ifs
    · simp
    · cases getline cs <;> simp

/-- The call `getline` takes a non-empty prefix of the file and leaves the rest. -/
theorem getline_append : ∀ (bs l r : List Nat), getline bs = some (l, r) →
    bs = l ++ r ∧ 0 < l.length := by
  intro bs
  induction bs with
  | nil => intro l r h; simp [getline] at h
  | cons c cs ih =>
    intro l r h
    simp only [getline] at h
    split_ifs at h with hc
    · simp only [Option.some.injEq, Prod.mk.injEq] at h
      obtain ⟨h1, h2⟩ := h
      subst h1 h2
      simp
    · cases hg : getline cs with
      | none =>
        rw [hg] at h
        simp only [Option.some.injEq, Prod.mk.injEq] at h
        obtain ⟨h1, h2⟩ := h
        subst h1 h2
        simp [(getline_eq_none cs).mp hg]
      | some p =>
        obtain ⟨l1, r1⟩ := p
        rw [hg] at h
        simp only [Option.some.injEq, Prod.mk.injEq] at h
        obtain ⟨h1, h2⟩ := h
        subst h1 h2
        have := (ih l1 r1 hg).1
        simp [this]

/-- The length of the file is enough fuel for the `while` loop. -/
theorem headerLoop_fuel (f1 : Nat) : ∀ (f2 : Nat) (bs : List Nat) (s : Hdr),
    bs.length ≤ f1 → bs.length ≤ f2 → headerLoop f1 bs s = headerLoop f2 bs s := by
  induction f1 with
  | zero =>
    intro f2 bs s h1 _
    have hb : bs = [] := List.length_eq_zero.mp (by omega)
    subst hb
    cases f2 with
    | zero => rfl
    | succ f2 => simp [headerLoop, getline]
  | succ f1 ih =>
    intro f2 bs s h1 h2
    cases f2 with
    | zero =>
      have hb : bs = [] := List.length_eq_zero.mp (by omega)
      subst hb
      simp [headerLoop, getline]
    | succ f2 =>
      simp only [headerLoop]
      split_ifs with hs
      · rfl
      · cases hg : getline bs with
        | none => rfl
        | some p =>
          obtain ⟨l, r⟩ := p
          obtain ⟨hb, hl⟩ := getline_append bs l r hg
          have hlen : bs.length = l.length + r.length := by rw [hb]; simp
          exact ih f2 r _ (by omega) (by omega)

/-- The fuel that `parseHeader` gives to the `while` loop is enough: more fuel gives the
same result. -/
theorem headerLoop_enough (f : Nat) (file : List Nat) (s : Hdr) (hf : file.length ≤ f) :
    headerLoop f file s = parseHeader file s :=
  headerLoop_fuel _ _ _ _ hf (Nat.le_refl _)

theorem parseHeader_nil (s : Hdr) : parseHeader [] s = (s, []) := rfl

/-- In section `END` the `while` loop reads nothing. -/
theorem parseHeader_end (bs : List Nat) (s : Hdr) (hs : s.sect = .END) :
    parseHeader bs s = (s, bs) := by
  cases bs with
  | nil => rfl
  | cons c cs => simp [parseHeader, headerLoop, hs]

/-- One iteration of the `while` loop. -/
theorem parseHeader_line (bs l r : List Nat) (s : Hdr) (hs : s.sect ≠ .END)
    (hg : getline bs = some (l, r)) : parseHeader bs s = parseHeader r (runLine l s) := by
  obtain ⟨hb, hl⟩ := getline_append bs l r hg
  have hlen : bs.length = l.length + r.length := by rw [hb]; simp
  obtain ⟨n, hn⟩ : ∃ n, bs.length = n + 1 := ⟨bs.length - 1, by omega⟩
  rw [parseHeader, hn, headerLoop]
  simp only [hs, if_false, hg]
  exact headerLoop_fuel _ _ _ _ (by omega) (by omega)

theorem getline_cons (c : Nat) (bs : List Nat) (hc : c ≠ 10) :
    getline (c :: bs) = some (c :: firstLine bs, afterLine bs) := by
  simp only [getline, hc, if_false, firstLine, afterLine]
  cases getline bs <;> rfl

theorem parseHeader_firstLine (bs : List Nat) (s : Hdr) (hs : s.sect ≠ .END) :
    parseHeader bs s = parseHeader (afterLine bs) (runLine (firstLine bs) s) := by
  cases hg : getline bs with
  | none =>
    have hb := (getline_eq_none bs).mp hg
    subst hb
    simp [firstLine, afterLine, getline, runLine_nil, parseHeader_nil]
  | some p =>
    obtain ⟨l, r⟩ := p
    rw [parseHeader_line bs l r s hs hg]
    simp [firstLine, afterLine, hg]

/-- A comment: the bytes from `#` to the end of the line are skipped. -/
theorem parseHeader_hash (bs : List Nat) (s : Hdr) (hs : s.sect ≠ .END) :
    parseHeader (35 :: bs) s = parseHeader (afterLine bs) s := by
  rw [parseHeader_line _ _ _ s hs (getline_cons 35 bs (by decide)), runLine_hash]

/-- A consumed byte, seen from the file: the header loop goes on after it. -/
theorem parseHeader_consume (c : Nat) (bs : List Nat) (s t : Hdr) (hc : c ≠ 35)
    (hs : s.sect ≠ .MAGIC_NUMBER) (he : s.sect ≠ .END) (hb : byteStep c s = (0, t))
    (hn : c = 10 ∨ t.sect ≠ .END) :
    parseHeader (c :: bs) s = parseHeader bs t := by
  by_cases h10 : c = 10
  · subst h10
    have hg : getline (10 :: bs) = some ([10], bs) := by simp [getline]
    rw [parseHeader_line _ _ _ s he hg, runLine_consume 10 [] s t hc hs hb, runLine_nil]
  · have hte : t.sect ≠ .END := by
      rcases hn with h | h
      · exact absurd h h10
      · exact h
    rw [parseHeader_line _ _ _ s he (getline_cons c bs h10),
      runLine_consume c _ s t hc hs hb, ← parseHeader_firstLine bs t hte]

/-- A rewind, seen from the file: the same byte is read again in the next section. -/
theorem parseHeader_rewind (c : Nat) (bs : List Nat) (s t : Hdr) (hc : c ≠ 35)
    (hs : s.sect ≠ .MAGIC_NUMBER) (he : s.sect ≠ .END) (hb : byteStep c s = (-1, t))
    (hte : t.sect ≠ .END) :
    parseHeader (c :: bs) s = parseHeader (c :: bs) t := by
  cases hg : getline (c :: bs) with
  | none => simp [getline_eq_none] at hg
  | some p =>
    obtain ⟨l, r⟩ := p
    rw [parseHeader_line _ _ _ s he hg, parseHeader_line _ _ _ t hte hg]
    obtain ⟨hb2, hl⟩ := getline_append _ l r hg
    cases l with
    | nil => simp at hl
    | cons c2 l2 =>
      have hcc : c2 = c := by
        simp only [List.cons_append, List.cons.injEq] at hb2
        exact hb2.1.symm
      subst hcc
      rw [runLine_rewind c2 l2 s t hc hs hb]

/-- The magic number, seen from the file: it takes the first two bytes. -/
theorem parseHeader_magic (a b : Nat) (bs : List Nat) (s : Hdr) (ha : a ≠ 35) (ha2 : a ≠ 10)
    (hs : s.sect = .MAGIC_NUMBER) :
    parseHeader (a :: b :: bs) s = parseHeader bs (afterMagic a b s) := by
  have he : s.sect ≠ .END := by rw [hs]; decide
  have hte : (afterMagic a b s).sect ≠ .END := by simp [afterMagic]
  by_cases h10 : b = 10
  · subst h10
    have hg : getline (a :: 10 :: bs) = some ([a, 10], bs) := by simp [getline, ha2]
    rw [parseHeader_line _ _ _ s he hg, runLine_magic a 10 [] s ha hs, runLine_nil]
  · have hg : getline (a :: b :: bs) = some (a :: b :: firstLine bs, afterLine bs) := by
      rw [getline_cons a _ ha2]
      simp [firstLine, afterLine, getline_cons b bs h10]
    rw [parseHeader_line _ _ _ s he hg, runLine_magic a b _ s ha hs,
      ← parseHeader_firstLine bs _ hte]

/-! ## Whitespace runs and digit runs -/

theorem isspace_ne_hash (c : Nat) (h : isspace c = true) : c ≠ 35 := by
  intro hc; subst hc; simp [isspace] at h

theorem isdigit_ne_hash (c : Nat) (h : isdigit c = true) : c ≠ 35 := by
  intro hc; subst hc; simp [isdigit] at h

theorem isdigit_not_isspace (c : Nat) (h : isdigit c = true) : isspace c = false := by
  simp only [isdigit, isspace, Bool.and_eq_true, decide_eq_true_eq] at h ⊢
  simp only [Bool.or_eq_false_iff, beq_eq_false_iff_ne, ne_eq, Bool.and_eq_false_iff,
    decide_eq_false_iff_not]
  omega

theorem isspace_not_isdigit (c : Nat) (h : isspace c = true) : isdigit c = false := by
  cases hd : isdigit c with
  | false => rfl
  | true => rw [isdigit_not_isspace c hd] at h; exact absurd h (by decide)

theorem byteStep_ws_space (c : Nat) (s : Hdr) (hs : s.sect.isWs = true)
    (hc : isspace c = true) : byteStep c s = (0, s) := by
  rcases s with ⟨sect, w, hh, m, e⟩
  cases sect <;> simp_all [Section.isWs, byteStep, switchBody]

theorem byteStep_ws_other (c : Nat) (s : Hdr) (hs : s.sect.isWs = true)
    (hc : isspace c = false) : byteStep c s = (-1, { s with sect := s.sect.succ }) := by
  rcases s with ⟨sect, w, hh, m, e⟩
  cases sect <;> simp_all [Section.isWs, byteStep, switchBody]

theorem byteStep_num_digit (c : Nat) (s : Hdr) (hs : s.sect.isNum = true)
    (hc : isdigit c = true) : byteStep c s = (0, s.addDigit c) := by
  rcases s with ⟨sect, w, hh, m, e⟩
  cases sect <;> simp_all [Section.isNum, byteStep, switchBody, Hdr.addDigit]

theorem byteStep_num_other (c : Nat) (s : Hdr) (hs : s.sect.isNum = true)
    (hc : isdigit c = false) : byteStep c s = (-1, { s with sect := s.sect.succ }) := by
  rcases s with ⟨sect, w, hh, m, e⟩
  cases sect <;> simp_all [Section.isNum, byteStep, switchBody]

theorem byteStep_ws_char (c : Nat) (s : Hdr) (hs : s.sect = .WHITESPACE_CHAR) :
    byteStep c s
      = (0, { (if isspace c = true then s else s.warn .expectedSpace) with sect := .END }) := by
  rcases s with ⟨sect, w, hh, m, e⟩
  simp only at hs
  subst hs
  cases hc : isspace c <;> simp [byteStep, switchBody, hc, Section.succ, Hdr.warn]

theorem byteStep_end (c : Nat) (s : Hdr) (hs : s.sect = .END) :
    byteStep c s = (0, s.warn .unexpectedEnd) := by
  rcases s with ⟨sect, w, hh, m, e⟩
  simp only at hs
  subst hs
  simp [byteStep, switchBody]

theorem isWs_ne (x : Section) (h : x.isWs = true) :
    x ≠ .MAGIC_NUMBER ∧ x ≠ .END ∧ x.succ ≠ .END ∧ x.succ.isNum = true := by
  cases x <;> simp_all [Section.isWs, Section.succ, Section.isNum]

theorem isNum_ne (x : Section) (h : x.isNum = true) :
    x ≠ .MAGIC_NUMBER ∧ x ≠ .END ∧ x.succ ≠ .END := by
  cases x <;> simp_all [Section.isNum, Section.succ]

theorem addDigit_sect (s : Hdr) (c : Nat) : (s.addDigit c).sect = s.sect := by
  rcases s with ⟨sect, w, hh, m, e⟩
  cases sect <;> rfl

/-- A run of whitespace is skipped in a whitespace section, across line ends. -/
theorem parseHeader_skip (ws : List Nat) : ∀ (bs : List Nat) (s : Hdr),
    s.sect.isWs = true → (∀ c ∈ ws, isspace c = true) →
    parseHeader (ws ++ bs) s = parseHeader bs s := by
  induction ws with
  | nil => intro bs s _ _; rfl
  | cons c ws ih =>
    intro bs s hs hws
    have hc : isspace c = true := hws c (by simp)
    obtain ⟨h1, h2, _, _⟩ := isWs_ne s.sect hs
    rw [List.cons_append,
      parseHeader_consume c (ws ++ bs) s s (isspace_ne_hash c hc) h1 h2
        (byteStep_ws_space c s hs hc) (Or.inr h2)]
    exact ih bs s hs (fun d hd => hws d (by simp [hd]))

/-- A run of digits is read in a number section. -/
theorem parseHeader_digits (ds : List Nat) : ∀ (bs : List Nat) (s : Hdr),
    s.sect.isNum = true → (∀ c ∈ ds, isdigit c = true) →
    parseHeader (ds ++ bs) s = parseHeader bs (ds.foldl Hdr.addDigit s) := by
  induction ds with
  | nil => intro bs s _ _; rfl
  | cons c ds ih =>
    intro bs s hs hds
    have hc : isdigit c = true := hds c (by simp)
    obtain ⟨h1, h2, _⟩ := isNum_ne s.sect hs
    have h3 : (s.addDigit c).sect ≠ .END := by rw [addDigit_sect]; exact h2
    rw [List.cons_append,
      parseHeader_consume c (ds ++ bs) s (s.addDigit c) (isdigit_ne_hash c hc) h1 h2
        (byteStep_num_digit c s hs hc) (Or.inr h3)]
    rw [List.foldl_cons]
    exact ih bs (s.addDigit c) (by rw [addDigit_sect]; exact hs)
      (fun d hd => hds d (by simp [hd]))

/-- A header field: optional whitespace, then a non-empty run of digits. -/
theorem parseHeader_field (ws ds bs : List Nat) (s : Hdr) (hs : s.sect.isWs = true)
    (hws : ∀ c ∈ ws, isspace c = true) (hds : ∀ c ∈ ds, isdigit c = true) (hne : ds ≠ []) :
    parseHeader (ws ++ (ds ++ bs)) s
      = parseHeader bs (ds.foldl Hdr.addDigit { s with sect := s.sect.succ }) := by
  rw [parseHeader_skip ws _ s hs hws]
  obtain ⟨h1, h2, h3, h4⟩ := isWs_ne s.sect hs
  cases ds with
  | nil => exact absurd rfl hne
  | cons d ds =>
    have hd : isdigit d = true := hds d (by simp)
    rw [List.cons_append,
      parseHeader_rewind d (ds ++ bs) s { s with sect := s.sect.succ } (isdigit_ne_hash d hd)
        h1 h2 (byteStep_ws_other d s hs (isdigit_not_isspace d hd)) h3,
      ← List.cons_append]
    exact parseHeader_digits (d :: ds) bs _ h4 hds

/-- A separator: the first byte of a non-empty run of whitespace ends a run of digits. -/
theorem parseHeader_sep (ws bs : List Nat) (s : Hdr) (hs : s.sect.isNum = true)
    (hws : ∀ c ∈ ws, isspace c = true) (hne : ws ≠ []) :
    parseHeader (ws ++ bs) s = parseHeader (ws ++ bs) { s with sect := s.sect.succ } := by
  obtain ⟨h1, h2, h3⟩ := isNum_ne s.sect hs
  cases ws with
  | nil => exact absurd rfl hne
  | cons c ws =>
    have hc : isspace c = true := hws c (by simp)
    rw [List.cons_append,
      parseHeader_rewind c (ws ++ bs) s { s with sect := s.sect.succ } (isspace_ne_hash c hc)
        h1 h2 (byteStep_num_other c s hs (isspace_not_isdigit c hc)) h3]

/-! ## The end of the header -/

/-- In section `END` the `for` loop goes on to the end of the line (or to a `#`) and writes
"Unexpected end of the world" for every byte it passes; it changes nothing else. -/
theorem forLoop_end (f : Nat) : ∀ (line : List Nat) (i : Int) (s : Hdr), s.sect = .END →
    ∃ k, forLoop f line i s = { s with err := s.err ++ List.replicate k Msg.unexpectedEnd } := by
  induction f with
  | zero => intro line i s _; exact ⟨0, by simp [forLoop]⟩
  | succ f ih =>
    intro line i s hs
    by_cases hi : i < (line.length : Int)
    · by_cases hc : line.getD i.toNat 0 = 35
      · exact ⟨0, by simp [forLoop_hash _ _ _ _ hc]⟩
      · have hm : s.sect ≠ .MAGIC_NUMBER := by rw [hs]; decide
        rw [forLoop_step _ _ _ _ hi hc, switchBody_eq_byteStep _ _ _ hm, byteStep_end _ _ hs]
        obtain ⟨k, hk⟩ := ih line (i + 0 + 1) (s.warn .unexpectedEnd) hs
        refine ⟨k + 1, ?_⟩
        rw [hk]
        simp [Hdr.warn, List.replicate_succ]
    · exact ⟨0, by simp [forLoop_done _ _ _ _ hi]⟩

theorem runLine_end (line : List Nat) (s : Hdr) (hs : s.sect = .END) :
    ∃ k, runLine line s = { s with err := s.err ++ List.replicate k Msg.unexpectedEnd } :=
  forLoop_end _ line 0 s hs

/-- The byte after the digits of the maximum colour value ends the header. When it is not a
newline, `getline` has already taken the rest of its line from the file. -/
theorem parseHeader_last (c : Nat) (bs : List Nat) (s : Hdr) (hs : s.sect = .MAX_COLOR_VAL)
    (hd : isdigit c = false) (hc : c ≠ 35) :
    parseHeader (c :: bs) s
      = if c = 10 then (afterWsChar c s, bs)
        else (runLine (firstLine bs) (afterWsChar c s), afterLine bs) := by
  have hnum : s.sect.isNum = true := by rw [hs]; rfl
  obtain ⟨h1, h2, h3⟩ := isNum_ne s.sect hnum
  rw [parseHeader_rewind c bs s { s with sect := s.sect.succ } hc h1 h2
    (byteStep_num_other c s hnum hd) h3]
  have h7 : ({ s with sect := s.sect.succ } : Hdr).sect = .WHITESPACE_CHAR := by
    simp [hs, Section.succ]
  have hb := byteStep_ws_char c { s with sect := s.sect.succ } h7
  have hb2 : byteStep c { s with sect := s.sect.succ } = (0, afterWsChar c s) := by
    rw [hb]
    cases hsp : isspace c <;> simp [afterWsChar, Hdr.warn, hsp]
  have hm7 : ({ s with sect := s.sect.succ } : Hdr).sect ≠ .MAGIC_NUMBER := by
    rw [h7]; decide
  have he7 : ({ s with sect := s.sect.succ } : Hdr).sect ≠ .END := by
    rw [h7]; decide
  have hend : (afterWsChar c s).sect = .END := rfl
  by_cases h10 : c = 10
  · rw [parseHeader_consume c bs _ _ hc hm7 he7 hb2 (Or.inl h10),
      parseHeader_end _ _ hend]
    simp [h10]
  · rw [parseHeader_line _ _ _ _ he7 (getline_cons c bs h10),
      runLine_consume c _ _ _ hc hm7 hb2]
    obtain ⟨k, hk⟩ := runLine_end (firstLine bs) _ hend
    rw [parseHeader_end _ _ (by rw [hk]; exact hend)]
    simp [h10]

theorem foldl_addDigit_width (ds : List Nat) : ∀ (s : Hdr), s.sect = .WIDTH →
    ds.foldl Hdr.addDigit s = { s with width := accum s.width ds } := by
  induction ds with
  | nil => intro s _; rfl
  | cons d ds ih =>
    intro s hs
    rcases s with ⟨sect, w, hh, m, e⟩
    simp only at hs
    subst hs
    rw [List.foldl_cons, ih _ (by rfl)]
    simp [Hdr.addDigit, accum]

theorem foldl_addDigit_height (ds : List Nat) : ∀ (s : Hdr), s.sect = .HEIGHT →
    ds.foldl Hdr.addDigit s = { s with height := accum s.height ds } := by
  induction ds with
  | nil => intro s _; rfl
  | cons d ds ih =>
    intro s hs
    rcases s with ⟨sect, w, hh, m, e⟩
    simp only at hs
    subst hs
    rw [List.foldl_cons, ih _ (by rfl)]
    simp [Hdr.addDigit, accum]

theorem foldl_addDigit_max (ds : List Nat) : ∀ (s : Hdr), s.sect = .MAX_COLOR_VAL →
    ds.foldl Hdr.addDigit s = { s with max_color := accum s.max_color ds } := by
  induction ds with
  | nil => intro s _; rfl
  | cons d ds ih =>
    intro s hs
    rcases s with ⟨sect, w, hh, m, e⟩
    simp only at hs
    subst hs
    rw [List.foldl_cons, ih _ (by rfl)]
    simp [Hdr.addDigit, accum]

theorem afterMagic_init (a b : Nat) :
    afterMagic a b Hdr.init = ⟨.WHITESPACE1, 0, 0, 0, magicErr a b⟩ := by
  unfold afterMagic magicErr
  split_ifs <;> rfl

/-- The header loop after the magic number, on
whitespace `W` whitespace `H` whitespace `M` `c`. -/
theorem parseHeader_body (e : List Msg) (s1 W s2 H s3 M : List Nat) (c : Nat) (bs : List Nat)
    (hs1 : ∀ x ∈ s1, isspace x = true)
    (hs2 : ∀ x ∈ s2, isspace x = true) (hs3 : ∀ x ∈ s3, isspace x = true)
    (hW : ∀ x ∈ W, isdigit x = true) (hH : ∀ x ∈ H, isdigit x = true)
    (hM : ∀ x ∈ M, isdigit x = true)
    (n2 : s2 ≠ []) (n3 : s3 ≠ []) (nW : W ≠ []) (nH : H ≠ []) (nM : M ≠ [])
    (hd : isdigit c = false) (hc : c ≠ 35) :
    parseHeader (s1 ++ (W ++ (s2 ++ (H ++ (s3 ++ (M ++ c :: bs))))))
        ⟨.WHITESPACE1, 0, 0, 0, e⟩
      = if c = 10 then (doneHdr e W H M c, bs)
        else (runLine (firstLine bs) (doneHdr e W H M c), afterLine bs) := by
  rw [parseHeader_field s1 W _ _ (by rfl) hs1 hW nW, foldl_addDigit_width W _ (by rfl)]
  dsimp only [Section.succ]
  rw [parseHeader_sep s2 _ _ (by rfl) hs2 n2]
  dsimp only [Section.succ]
  rw [parseHeader_field s2 H _ _ (by rfl) hs2 hH nH, foldl_addDigit_height H _ (by rfl)]
  dsimp only [Section.succ]
  rw [parseHeader_sep s3 _ _ (by rfl) hs3 n3]
  dsimp only [Section.succ]
  rw [parseHeader_field s3 M _ _ (by rfl) hs3 hM nM, foldl_addDigit_max M _ (by rfl)]
  dsimp only [Section.succ]
  rw [parseHeader_last c bs _ (by rfl) hd hc]
  have hdone : afterWsChar c
      { sect := .MAX_COLOR_VAL, width := accum 0 W, height := accum 0 H,
        max_color := accum 0 M, err := e } = doneHdr e W H M c := by
    cases hsp : isspace c <;> simp [afterWsChar, doneHdr, Hdr.warn, hsp]
  rw [hdone]

/-- The header loop on a header of the shape
`a b` whitespace `W` whitespace `H` whitespace `M` `c`. -/
theorem parseHeader_shape (a b : Nat) (s1 W s2 H s3 M : List Nat) (c : Nat) (bs : List Nat)
    (ha : a ≠ 35) (ha2 : a ≠ 10)
    (hs1 : ∀ x ∈ s1, isspace x = true)
    (hs2 : ∀ x ∈ s2, isspace x = true) (hs3 : ∀ x ∈ s3, isspace x = true)
    (hW : ∀ x ∈ W, isdigit x = true) (hH : ∀ x ∈ H, isdigit x = true)
    (hM : ∀ x ∈ M, isdigit x = true)
    (n2 : s2 ≠ []) (n3 : s3 ≠ []) (nW : W ≠ []) (nH : H ≠ []) (nM : M ≠ [])
    (hd : isdigit c = false) (hc : c ≠ 35) :
    parseHeader (a :: b :: (s1 ++ (W ++ (s2 ++ (H ++ (s3 ++ (M ++ c :: bs))))))) Hdr.init
      = if c = 10 then (doneHdr (magicErr a b) W H M c, bs)
        else (runLine (firstLine bs) (doneHdr (magicErr a b) W H M c), afterLine bs) := by
  rw [parseHeader_magic a b _ _ ha ha2 rfl, afterMagic_init]
  exact parseHeader_body _ s1 W s2 H s3 M c bs hs1 hs2 hs3 hW hH hM n2 n3 nW nH nM hd hc

/-! ## Digit runs and decimal numerals -/

theorem accum_mod (ds : List Nat) : ∀ (v u : Nat), (∀ c ∈ ds, isdigit c = true) →
    v % UINT_MOD = u % UINT_MOD →
    accum v ds % UINT_MOD = ds.foldl (fun a c => 10 * a + (c - 48)) u % UINT_MOD := by
  induction ds with
  | nil => intro v u _ h; exact h
  | cons c ds ih =>
    intro v u hds h
    have hc : isdigit c = true := hds c (by simp)
    simp only [isdigit, Bool.and_eq_true, decide_eq_true_eq] at hc
    simp only [accum, List.foldl_cons]
    refine ih _ _ (fun d hd => hds d (by simp [hd])) ?_
    simp only [UINT_MOD] at h ⊢
    omega

theorem accum_lt (ds : List Nat) : ∀ (v : Nat), v < UINT_MOD → accum v ds < UINT_MOD := by
  induction ds with
  | nil => intro v h; exact h
  | cons c ds ih =>
    intro v _
    simp only [accum, List.foldl_cons]
    exact ih _ (Nat.mod_lt _ (by decide))

/-- The number read from a run of digits is its decimal value reduced modulo `2 ^ 32`. -/
theorem accum_eq (ds : List Nat) (hds : ∀ c ∈ ds, isdigit c = true) :
    accum 0 ds = digitsVal ds % UINT_MOD := by
  have h1 := accum_mod ds 0 0 hds rfl
  have h2 := accum_lt ds 0 (by decide)
  rw [Nat.mod_eq_of_lt h2] at h1
  exact h1

theorem digitChar_toNat (k : Nat) (hk : k < 10) : (Nat.digitChar k).toNat = 48 + k := by
  interval_cases k <;> rfl

theorem toDigitsCore_val (fuel : Nat) : ∀ (n : Nat) (ds : List Char), n < fuel →
    ((Nat.toDigitsCore 10 fuel n ds).map Char.toNat).foldl (fun a c => 10 * a + (c - 48)) 0
      = (ds.map Char.toNat).foldl (fun a c => 10 * a + (c - 48)) n := by
  induction fuel with
  | zero => intro n ds h; omega
  | succ fuel ih =>
    intro n ds h
    have hd := digitChar_toNat (n % 10) (Nat.mod_lt _ (by decide))
    simp only [Nat.toDigitsCore]
    split_ifs with h0
    · simp only [List.map_cons, List.foldl_cons, hd]
      congr 1
      omega
    · rw [ih (n / 10) _ (by omega)]
      simp only [List.map_cons, List.foldl_cons, hd]
      congr 1
      omega

theorem toDigitsCore_isdigit (fuel : Nat) : ∀ (n : Nat) (ds : List Char),
    (∀ c ∈ ds.map Char.toNat, isdigit c = true) →
    ∀ c ∈ (Nat.toDigitsCore 10 fuel n ds).map Char.toNat, isdigit c = true := by
  induction fuel with
  | zero => intro n ds h; simpa [Nat.toDigitsCore] using h
  | succ fuel ih =>
    intro n ds h
    have hd := digitChar_toNat (n % 10) (Nat.mod_lt _ (by decide))
    have hdig : isdigit (Nat.digitChar (n % 10)).toNat = true := by
      rw [hd]
      simp only [isdigit, Bool.and_eq_true, decide_eq_true_eq]
      omega
    have hcons : ∀ c ∈ (Nat.digitChar (n % 10) :: ds).map Char.toNat, isdigit c = true := by
      intro c hc
      simp only [List.map_cons, List.mem_cons] at hc
      rcases hc with hc | hc
      · rw [hc]; exact hdig
      · exact h c hc
    simp only [Nat.toDigitsCore]
    split_ifs with h0
    · exact hcons
    · exact ih _ _ hcons

theorem toDigitsCore_ne_nil (fuel : Nat) : ∀ (n : Nat) (ds : List Char),
    Nat.toDigitsCore 10 (fuel + 1) n ds ≠ [] := by
  induction fuel with
  | zero =>
    intro n ds
    simp only [Nat.toDigitsCore]
    split_ifs <;> simp
  | succ fuel ih =>
    intro n ds
    rw [Nat.toDigitsCore]
    split_ifs
    · simp
    · exact ih _ _

/-- A decimal numeral reads back as the number it was printed from. -/
theorem digitsVal_decimal (n : Nat) : digitsVal (decimal n) = n := by
  simp only [digitsVal, decimal, Nat.toDigits]
  rw [toDigitsCore_val (n + 1) n [] (by omega)]
  rfl

theorem decimal_isdigit (n : Nat) : ∀ c ∈ decimal n, isdigit c = true :=
  toDigitsCore_isdigit (n + 1) n [] (by simp)

theorem decimal_ne_nil (n : Nat) : decimal n ≠ [] := by
  simp only [decimal, Nat.toDigits, ne_eq, List.map_eq_nil_iff]
  exact toDigitsCore_ne_nil n n []

theorem accum_decimal (n : Nat) : accum 0 (decimal n) = n % UINT_MOD := by
  rw [accum_eq _ (decimal_isdigit n), digitsVal_decimal]

/-! ## What the header loop writes to `stderr` -/

/-- The `switch` only appends to `stderr`; after the magic number it appends nothing but
"expected space" and "Unexpected end of the world". -/
theorem switchBody_err (line : List Nat) (i : Int) (s : Hdr) :
    ∃ extra, (switchBody line i s).2.err = s.err ++ extra ∧
      (∀ m ∈ extra, m.isHeaderTail = true ∨ (m = Msg.badMagic ∧ s.sect = .MAGIC_NUMBER)) ∧
      (switchBody line i s).2.sect ≠ .MAGIC_NUMBER := by
  rcases s with ⟨sect, w, hh, m, e⟩
  cases sect <;> simp only [switchBody, Hdr.warn] <;> (try split_ifs) <;>
    first
      | (refine ⟨[], ?_⟩; simp [Section.succ]; done)
      | (refine ⟨[Msg.badMagic], ?_⟩; simp [Section.succ]; done)
      | (refine ⟨[Msg.expectedSpace], ?_⟩; simp [Section.succ, Msg.isHeaderTail]; done)
      | (refine ⟨[Msg.unexpectedEnd], ?_⟩; simp [Section.succ, Msg.isHeaderTail])

theorem forLoop_err (f : Nat) : ∀ (line : List Nat) (i : Int) (s : Hdr),
    ∃ extra, (forLoop f line i s).err = s.err ++ extra ∧
      (∀ m ∈ extra, m.isHeaderTail = true ∨ (m = Msg.badMagic ∧ s.sect = .MAGIC_NUMBER)) ∧
      (s.sect ≠ .MAGIC_NUMBER → (forLoop f line i s).sect ≠ .MAGIC_NUMBER) := by
  induction f with
  | zero => intro line i s; exact ⟨[], by simp [forLoop]⟩
  | succ f ih =>
    intro line i s
    by_cases hi : i < (line.length : Int)
    · by_cases hc : line.getD i.toNat 0 = 35
      · rw [forLoop_hash _ _ _ _ hc]; exact ⟨[], by simp⟩
      · rw [forLoop_step _ _ _ _ hi hc]
        obtain ⟨x1, h1, h2, h3⟩ := switchBody_err line i s
        obtain ⟨x2, g1, g2, g3⟩ := ih line ((switchBody line i s).1 + 1) (switchBody line i s).2
        refine ⟨x1 ++ x2, by rw [g1, h1, List.append_assoc], ?_, fun _ => g3 h3⟩
        intro m hm
        rcases List.mem_append.mp hm with hm | hm
        · exact h2 m hm
        · rcases g2 m hm with h | h
          · exact Or.inl h
          · exact absurd h.2 h3
    · rw [forLoop_done _ _ _ _ hi]; exact ⟨[], by simp⟩

theorem headerLoop_err (f : Nat) : ∀ (bs : List Nat) (s : Hdr),
    ∃ extra, (headerLoop f bs s).1.err = s.err ++ extra ∧
      (∀ m ∈ extra, m.isHeaderTail = true ∨ (m = Msg.badMagic ∧ s.sect = .MAGIC_NUMBER)) := by
  induction f with
  | zero => intro bs s; exact ⟨[], by simp [headerLoop]⟩
  | succ f ih =>
    intro bs s
    rw [headerLoop]
    split_ifs with hs
    · exact ⟨[], by simp⟩
    · cases hg : getline bs with
      | none => exact ⟨[], by simp⟩
      | some p =>
        obtain ⟨l, r⟩ := p
        simp only
        obtain ⟨x1, h1, h2, h3⟩ := forLoop_err (lineFuel l) l 0 s
        obtain ⟨x2, g1, g2⟩ := ih r (forLoop (lineFuel l) l 0 s)
        refine ⟨x1 ++ x2, by rw [g1, h1, List.append_assoc], ?_⟩
        intro m hm
        rcases List.mem_append.mp hm with hm | hm
        · exact h2 m hm
        · rcases g2 m hm with h | h
          · exact Or.inl h
          · right
            refine ⟨h.1, ?_⟩
            by_contra hne
            exact h3 hne h.2

/-- The header loop never writes "Only 'base 255' color scales" or "Read the wrong number of
pixels" to `stderr`. -/
theorem parseHeader_err (bs : List Nat) (m : Msg)
    (hm : m ∈ (parseHeader bs Hdr.init).1.err) :
    m = .badMagic ∨ m = .expectedSpace ∨ m = .unexpectedEnd := by
  obtain ⟨x, h1, h2⟩ := headerLoop_err bs.length bs Hdr.init
  rw [parseHeader, h1] at hm
  simp only [Hdr.init, List.nil_append] at hm
  rcases h2 m hm with h | h
  · cases m <;> simp_all [Msg.isHeaderTail]
  · exact Or.inl h.1

/-! ### Messages written before the header loop starts stay in front -/

theorem switchBody_pre (p : List Msg) (line : List Nat) (i : Int) (s : Hdr) :
    switchBody line i (s.pre p)
      = ((switchBody line i s).1, (switchBody line i s).2.pre p) := by
  rcases s with ⟨sect, w, hh, m, e⟩
  cases sect <;> simp only [switchBody, Hdr.warn, Hdr.pre] <;> (try split_ifs) <;>
    simp [List.append_assoc]

theorem forLoop_pre (p : List Msg) (f : Nat) : ∀ (line : List Nat) (i : Int) (s : Hdr),
    forLoop f line i (s.pre p) = (forLoop f line i s).pre p := by
  induction f with
  | zero => intro line i s; rfl
  | succ f ih =>
    intro line i s
    by_cases hi : i < (line.length : Int)
    · by_cases hc : line.getD i.toNat 0 = 35
      · rw [forLoop_hash _ _ _ _ hc, forLoop_hash _ _ _ _ hc]
      · rw [forLoop_step _ _ _ _ hi hc, forLoop_step _ _ _ _ hi hc, switchBody_pre]
        exact ih _ _ _
    · rw [forLoop_done _ _ _ _ hi, forLoop_done _ _ _ _ hi]

theorem headerLoop_pre (p : List Msg) (f : Nat) : ∀ (bs : List Nat) (s : Hdr),
    headerLoop f bs (s.pre p) = ((headerLoop f bs s).1.pre p, (headerLoop f bs s).2) := by
  induction f with
  | zero => intro bs s; rfl
  | succ f ih =>
    intro bs s
    rw [headerLoop, headerLoop]
    have hsect : (s.pre p).sect = s.sect := rfl
    rw [hsect]
    split_ifs with hs
    · rfl
    · cases hg : getline bs with
      | none => rfl
      | some q =>
        obtain ⟨l, r⟩ := q
        simp only
        rw [forLoop_pre]
        exact ih _ _

theorem parseHeader_pre (p : List Msg) (bs : List Nat) (s : Hdr) :
    parseHeader bs (s.pre p) = ((parseHeader bs s).1.pre p, (parseHeader bs s).2) :=
  headerLoop_pre p bs.length bs s

/-! ## `loadPpm` from the result of the header loop -/

theorem loadPpm_eq (file : List Nat) :
    loadPpm (some file)
      = some ({ width := (parseHeader file Hdr.init).1.width,
                height := (parseHeader file Hdr.init).1.height,
                pixels := (parseHeader file Hdr.init).2.take
                  (pixelCount (parseHeader file Hdr.init).1.width
                    (parseHeader file Hdr.init).1.height),
                max_color := 255 },
              (parseHeader file Hdr.init).1.err
                ++ tailErr (parseHeader file Hdr.init).1 (parseHeader file Hdr.init).2) := by
  simp only [loadPpm, tailErr, Hdr.warn]
  by_cases hm : (parseHeader file Hdr.init).1.max_color = 255
  · split_ifs <;> simp_all
  · split_ifs <;> simp_all

theorem canonicalFile_eq (w h : Nat) (p : List Nat) :
    canonicalFile w h p
      = 80 :: 54 :: ([10] ++ (decimal w ++ ([32] ++ (decimal h
          ++ ([10] ++ ([50, 53, 53] ++ 10 :: p)))))) := by
  have h1 : bytes "P6\n" = [80, 54, 10] := by decide
  have h2 : bytes " " = [32] := by decide
  have h3 : bytes "\n255\n" = [10, 50, 53, 53, 10] := by decide
  simp [canonicalFile, h1, h2, h3]

theorem parseHeader_canonical (w h : Nat) (p : List Nat) :
    parseHeader (canonicalFile w h p) Hdr.init
      = (⟨.END, w % UINT_MOD, h % UINT_MOD, 255, []⟩, p) := by
  rw [canonicalFile_eq,
    parseHeader_shape 80 54 [10] (decimal w) [32] (decimal h) [10] [50, 53, 53] 10 p
      (by decide) (by decide) (by decide) (by decide) (by decide)
      (decimal_isdigit w) (decimal_isdigit h) (by decide)
      (by decide) (by decide) (decimal_ne_nil w) (decimal_ne_nil h) (by decide)
      (by decide) (by decide)]
  simp only [if_true, doneHdr, accum_decimal]
  have h255 : accum 0 [50, 53, 53] = 255 := by decide
  rw [h255]
  rfl

/-- The function `loadPpm` on a canonical file whose numbers fit `unsigned int`. -/
theorem loadPpm_canonical (w h : Nat) (p : List Nat) (hw : w < 2 ^ 32) (hh : h < 2 ^ 32)
    (hsize : w * h * 3 < 2 ^ 32) (hp : p.length = w * h * 3) :
    loadPpm (some (canonicalFile w h p))
      = some ({ width := w, height := h, pixels := p, max_color := 255 }, []) := by
  have hw2 : w % UINT_MOD = w := Nat.mod_eq_of_lt hw
  have hh2 : h % UINT_MOD = h := Nat.mod_eq_of_lt hh
  have hn : pixelCount w h = w * h * 3 := Nat.mod_eq_of_lt hsize
  rw [loadPpm_eq, parseHeader_canonical]
  simp only [hw2, hh2, hn, tailErr]
  have ht : p.take (w * h * 3) = p := List.take_of_length_le (by omega)
  simp [ht, hp]

/-! ## Headers of the documented shape -/

theorem headerFile_eq (s1 W s2 H s3 M : List Nat) (c : Nat) (payload : List Nat) :
    headerFile s1 W s2 H s3 M c payload
      = 80 :: 54 :: (s1 ++ (W ++ (s2 ++ (H ++ (s3 ++ (M ++ c :: payload)))))) := by
  simp [headerFile]

/-- The header loop after the magic number `P6`. -/
theorem parseHeader_P6 (bs : List Nat) :
    parseHeader (80 :: 54 :: bs) Hdr.init = parseHeader bs ⟨.WHITESPACE1, 0, 0, 0, []⟩ := by
  rw [parseHeader_magic 80 54 bs _ (by decide) (by decide) rfl, afterMagic_init]
  rfl

/-- The header loop after `P6`, whitespace and the digits of the width. -/
theorem parseHeader_to_width (s1 W bs : List Nat) (h1 : spaceRun s1) (hW : digitRun W) :
    parseHeader (80 :: 54 :: (s1 ++ (W ++ bs))) Hdr.init
      = parseHeader bs ⟨.WIDTH, accum 0 W, 0, 0, []⟩ := by
  rw [parseHeader_P6, parseHeader_field s1 W _ _ (by rfl) h1.2 hW.2 hW.1,
    foldl_addDigit_width W _ (by rfl)]
  rfl

/-- The header loop after `P6`, the width and the height. -/
theorem parseHeader_to_height (s1 W s2 H bs : List Nat) (h1 : spaceRun s1)
    (h2 : spaceRun s2) (hW : digitRun W) (hH : digitRun H) :
    parseHeader (80 :: 54 :: (s1 ++ (W ++ (s2 ++ (H ++ bs))))) Hdr.init
      = parseHeader bs ⟨.HEIGHT, accum 0 W, accum 0 H, 0, []⟩ := by
  rw [parseHeader_to_width s1 W _ h1 hW, parseHeader_sep s2 _ _ (by rfl) h2.2 h2.1]
  dsimp only [Section.succ]
  rw [parseHeader_field s2 H _ _ (by rfl) h2.2 hH.2 hH.1,
    foldl_addDigit_height H _ (by rfl)]
  rfl

/-- A header without digits for the maximum colour value: after the third whitespace run
comes a byte `c` that is neither a digit, nor whitespace, nor `#`. The header loop ends on
that byte with the maximum colour value 0. -/
theorem parseHeader_noMax (s1 W s2 H s3 : List Nat) (c : Nat) (payload : List Nat)
    (h1 : spaceRun s1) (h2 : spaceRun s2) (h3 : spaceRun s3)
    (hW : digitRun W) (hH : digitRun H)
    (hd : isdigit c = false) (hsp : isspace c = false) (hc : c ≠ 35) :
    (parseHeader (headerFile s1 W s2 H s3 [] c payload) Hdr.init).1.max_color = 0 := by
  have h10 : c ≠ 10 := by
    intro h; subst h; simp [isspace] at hsp
  rw [headerFile_eq, parseHeader_to_height s1 W s2 H _ h1 h2 hW hH,
    parseHeader_sep s3 _ _ (by rfl) h3.2 h3.1]
  dsimp only [Section.succ]
  rw [parseHeader_skip s3 _ _ (by rfl) h3.2, List.nil_append,
    parseHeader_rewind c payload _ _ hc (by simp) (by simp)
      (byteStep_ws_other c _ (by rfl) hsp) (by simp [Section.succ])]
  dsimp only [Section.succ]
  rw [parseHeader_last c payload _ (by rfl) hd hc, if_neg h10]
  obtain ⟨k, hk⟩ := runLine_end (firstLine payload)
    (afterWsChar c ⟨.MAX_COLOR_VAL, accum 0 W, accum 0 H, 0, []⟩) rfl
  simp only [hk]
  simp [afterWsChar, hsp, Hdr.warn]

/-- The header loop on a file of the documented shape: the three numbers are the values of
the digit runs modulo `2 ^ 32`; the payload starts after the byte `c` when `c` is a newline and
after the line of `c` otherwise. -/
theorem parseHeader_headerFile (s1 W s2 H s3 M : List Nat) (c : Nat) (payload : List Nat)
    (h1 : spaceRun s1) (h2 : spaceRun s2) (h3 : spaceRun s3)
    (hW : digitRun W) (hH : digitRun H) (hM : digitRun M) (hc : isspace c = true) :
    ∃ k, (c = 10 → k = 0) ∧
      parseHeader (headerFile s1 W s2 H s3 M c payload) Hdr.init
        = (⟨.END, digitsVal W % UINT_MOD, digitsVal H % UINT_MOD, digitsVal M % UINT_MOD,
            List.replicate k Msg.unexpectedEnd⟩,
          if c = 10 then payload else afterLine payload) := by
  rw [headerFile_eq,
    parseHeader_shape 80 54 s1 W s2 H s3 M c payload (by decide) (by decide) h1.2 h2.2 h3.2
      hW.2 hH.2 hM.2 h2.1 h3.1 hW.1 hH.1 hM.1 (isspace_not_isdigit c hc)
      (isspace_ne_hash c hc)]
  have hd : doneHdr (magicErr 80 54) W H M c
      = ⟨.END, digitsVal W % UINT_MOD, digitsVal H % UINT_MOD, digitsVal M % UINT_MOD, []⟩ := by
    simp [doneHdr, magicErr, hc, accum_eq _ hW.2, accum_eq _ hH.2, accum_eq _ hM.2]
  rw [hd]
  by_cases h10 : c = 10
  · exact ⟨0, fun _ => rfl, by simp [h10]⟩
  · obtain ⟨k, hk⟩ := runLine_end (firstLine payload)
      ⟨.END, digitsVal W % UINT_MOD, digitsVal H % UINT_MOD, digitsVal M % UINT_MOD, []⟩ rfl
    exact ⟨k, fun h => absurd h h10, by simp [h10, hk]⟩

/-! ## Canonical files and the numbers of the header (C2, C9, C6) -/

/-- C2, counterexample: the claim as stated admits the width `2 ^ 32` with height `0`
(then `w * h * 3 = 0 < 2 ^ 32` and the pixel sequence is empty), and on that canonical file
`loadPpm` returns width `0`, not `2 ^ 32`. -/
theorem canonical_decode_counterexample :
    (4294967296 * 0 * 3 < 2 ^ 32 ∧ ([] : List Nat).length = 4294967296 * 0 * 3) ∧
    loadPpm (some (canonicalFile 4294967296 0 []))
      = some ({ width := 0, height := 0, pixels := [], max_color := 255 }, []) := by
  refine ⟨by decide, ?_⟩
  rw [loadPpm_eq, parseHeader_canonical]
  decide

/-- C2 (amended): for every width `w < 2 ^ 32` and height `h < 2 ^ 32` with
`w * h * 3 < 2 ^ 32` and every byte sequence `p` of length `w * h * 3`, `loadPpm` on the file
`P6`, newline, decimal `w`, space, decimal `h`, newline, `255`, newline, `p` returns width `w`,
height `h`, `max_color` 255 and pixels `p`, and writes nothing to `stderr`. -/
theorem canonical_decode (w h : Nat) (p : List Nat) (hw : w < 2 ^ 32) (hh : h < 2 ^ 32)
    (hsize : w * h * 3 < 2 ^ 32) (hp : p.length = w * h * 3) :
    loadPpm (some (canonicalFile w h p))
      = some ({ width := w, height := h, pixels := p, max_color := 255 }, []) :=
  loadPpm_canonical w h p hw hh hsize hp

/-- C2, witness: the scenario of the specification, width 2, height 1 and six pixel bytes. -/
theorem canonical_decode_witness :
    (2 < 2 ^ 32 ∧ 1 < 2 ^ 32 ∧ 2 * 1 * 3 < 2 ^ 32 ∧
      [255, 0, 0, 0, 255, 0].length = 2 * 1 * 3) ∧
    canonicalFile 2 1 [255, 0, 0, 0, 255, 0]
      = bytes "P6\n2 1\n255\n" ++ [255, 0, 0, 0, 255, 0] ∧
    loadPpm (some (canonicalFile 2 1 [255, 0, 0, 0, 255, 0]))
      = some ({ width := 2, height := 1, pixels := [255, 0, 0, 0, 255, 0], max_color := 255 },
          []) :=
  ⟨by decide, by decide,
    canonical_decode 2 1 [255, 0, 0, 0, 255, 0] (by decide) (by decide) (by decide)
      (by decide)⟩

/-- C9, counterexample: the width field `4294967297` (`2 ^ 32 + 1`) is decoded without any
failure and without saturation to the wrapped value `1`. -/
theorem numeric_wrap_counterexample :
    digitsVal (bytes "4294967297") = 4294967297 ∧ 2 ^ 32 ≤ 4294967297 ∧
    loadPpm (some (bytes "P6\n4294967297 1\n255\n" ++ [1, 2, 3]))
      = some ({ width := 1, height := 1, pixels := [1, 2, 3], max_color := 255 }, []) := by
  decide

/-- C9 (amended): for every header `P6` whitespace `W` whitespace `H` whitespace `M` and one
whitespace byte, where `W`, `H`, `M` are non-empty runs of digits, `loadPpm` returns an image
whose width is the decimal value of `W` modulo `2 ^ 32` and whose height is the decimal value
of `H` modulo `2 ^ 32`: the value itself when it is below `2 ^ 32`, the wrapped value
otherwise. -/
theorem width_height_modulo (s1 W s2 H s3 M : List Nat) (c : Nat) (payload : List Nat)
    (h1 : spaceRun s1) (h2 : spaceRun s2) (h3 : spaceRun s3)
    (hW : digitRun W) (hH : digitRun H) (hM : digitRun M) (hc : isspace c = true) :
    ∃ img msgs, loadPpm (some (headerFile s1 W s2 H s3 M c payload)) = some (img, msgs) ∧
      img.width = digitsVal W % 2 ^ 32 ∧ img.height = digitsVal H % 2 ^ 32 ∧
      (digitsVal W < 2 ^ 32 → img.width = digitsVal W) ∧
      (digitsVal H < 2 ^ 32 → img.height = digitsVal H) := by
  obtain ⟨k, _, hk⟩ := parseHeader_headerFile s1 W s2 H s3 M c payload h1 h2 h3 hW hH hM hc
  refine ⟨_, _, loadPpm_eq _, ?_⟩
  rw [hk]
  exact ⟨rfl, rfl, fun h => Nat.mod_eq_of_lt h, fun h => Nat.mod_eq_of_lt h⟩

/-- C9, witness: the header `P6\n4294967297 7\n255\n`; the width is read as 1. -/
theorem width_height_modulo_witness :
    (spaceRun [10] ∧ spaceRun [32] ∧ digitRun (bytes "4294967297") ∧ digitRun (bytes "7") ∧
      digitRun (bytes "255") ∧ isspace 10 = true) ∧
    digitsVal (bytes "4294967297") % 2 ^ 32 = 1 ∧
    ∃ img msgs,
      loadPpm (some (headerFile [10] (bytes "4294967297") [32] (bytes "7") [10] (bytes "255")
        10 [])) = some (img, msgs) ∧
      img.width = digitsVal (bytes "4294967297") % 2 ^ 32 ∧
      img.height = digitsVal (bytes "7") % 2 ^ 32 ∧
      (digitsVal (bytes "4294967297") < 2 ^ 32 → img.width = digitsVal (bytes "4294967297")) ∧
      (digitsVal (bytes "7") < 2 ^ 32 → img.height = digitsVal (bytes "7")) :=
  ⟨by decide, by decide,
    width_height_modulo [10] (bytes "4294967297") [32] (bytes "7") [10] (bytes "255") 10 []
      (by decide) (by decide) (by decide) (by decide) (by decide) (by decide) (by decide)⟩

/-- C6: for every header `P6` `s1` `W` `s2` `H` `s3` `M` followed by one whitespace byte,
where `W`, `H`, `M` are non-empty runs of digits and `s1`, `s2`, `s3` are non-empty runs of
whitespace bytes, the header loop and `loadPpm` return exactly what they return when each of
`s1`, `s2`, `s3` is a single space; the parsed width, height and maximum colour value are the
values of `W`, `H`, `M` (modulo `2 ^ 32`), whatever the whitespace runs are. -/
theorem whitespace_tolerance (s1 W s2 H s3 M : List Nat) (c : Nat) (payload : List Nat)
    (h1 : spaceRun s1) (h2 : spaceRun s2) (h3 : spaceRun s3)
    (hW : digitRun W) (hH : digitRun H) (hM : digitRun M) (hc : isspace c = true) :
    parseHeader (headerFile s1 W s2 H s3 M c payload) Hdr.init
      = parseHeader (headerFile [32] W [32] H [32] M c payload) Hdr.init ∧
    loadPpm (some (headerFile s1 W s2 H s3 M c payload))
      = loadPpm (some (headerFile [32] W [32] H [32] M c payload)) ∧
    (parseHeader (headerFile s1 W s2 H s3 M c payload) Hdr.init).1.width
      = digitsVal W % 2 ^ 32 ∧
    (parseHeader (headerFile s1 W s2 H s3 M c payload) Hdr.init).1.height
      = digitsVal H % 2 ^ 32 ∧
    (parseHeader (headerFile s1 W s2 H s3 M c payload) Hdr.init).1.max_color
      = digitsVal M % 2 ^ 32 := by
  have hsp : spaceRun [32] := by decide
  have e1 : parseHeader (headerFile s1 W s2 H s3 M c payload) Hdr.init
      = parseHeader (headerFile [32] W [32] H [32] M c payload) Hdr.init := by
    rw [headerFile_eq, headerFile_eq,
      parseHeader_shape 80 54 s1 W s2 H s3 M c payload (by decide) (by decide) h1.2 h2.2 h3.2
        hW.2 hH.2 hM.2 h2.1 h3.1 hW.1 hH.1 hM.1 (isspace_not_isdigit c hc)
        (isspace_ne_hash c hc),
      parseHeader_shape 80 54 [32] W [32] H [32] M c payload (by decide) (by decide) hsp.2
        hsp.2 hsp.2 hW.2 hH.2 hM.2 hsp.1 hsp.1 hW.1 hH.1 hM.1 (isspace_not_isdigit c hc)
        (isspace_ne_hash c hc)]
  obtain ⟨k, _, hk⟩ := parseHeader_headerFile s1 W s2 H s3 M c payload h1 h2 h3 hW hH hM hc
  refine ⟨e1, ?_, ?_, ?_, ?_⟩
  · rw [loadPpm_eq, loadPpm_eq, e1]
  · rw [hk]; rfl
  · rw [hk]; rfl
  · rw [hk]; rfl

/-- C6, witness: `P6`, tab and newline, `12`, three blanks, `3`, newline and tab, `255`. -/
theorem whitespace_tolerance_witness :
    (spaceRun [9, 10] ∧ spaceRun [32, 32, 32] ∧ spaceRun [10, 9] ∧ digitRun (bytes "12") ∧
      digitRun (bytes "3") ∧ digitRun (bytes "255") ∧ isspace 10 = true) ∧
    parseHeader (headerFile [9, 10] (bytes "12") [32, 32, 32] (bytes "3") [10, 9] (bytes "255")
        10 [1, 2]) Hdr.init
      = parseHeader (headerFile [32] (bytes "12") [32] (bytes "3") [32] (bytes "255")
        10 [1, 2]) Hdr.init ∧
    loadPpm (some (headerFile [9, 10] (bytes "12") [32, 32, 32] (bytes "3") [10, 9]
        (bytes "255") 10 [1, 2]))
      = loadPpm (some (headerFile [32] (bytes "12") [32] (bytes "3") [32] (bytes "255")
        10 [1, 2])) ∧
    (parseHeader (headerFile [9, 10] (bytes "12") [32, 32, 32] (bytes "3") [10, 9]
        (bytes "255") 10 [1, 2]) Hdr.init).1.width = digitsVal (bytes "12") % 2 ^ 32 ∧
    (parseHeader (headerFile [9, 10] (bytes "12") [32, 32, 32] (bytes "3") [10, 9]
        (bytes "255") 10 [1, 2]) Hdr.init).1.height = digitsVal (bytes "3") % 2 ^ 32 ∧
    (parseHeader (headerFile [9, 10] (bytes "12") [32, 32, 32] (bytes "3") [10, 9]
        (bytes "255") 10 [1, 2]) Hdr.init).1.max_color = digitsVal (bytes "255") % 2 ^ 32 :=
  ⟨by decide,
    whitespace_tolerance [9, 10] (bytes "12") [32, 32, 32] (bytes "3") [10, 9] (bytes "255")
      10 [1, 2] (by decide) (by decide) (by decide) (by decide) (by decide) (by decide)
      (by decide)⟩

theorem tailErr_scale (s : Hdr) (rest : List Nat) :
    Msg.unsupportedScale ∈ tailErr s rest ↔ s.max_color ≠ 255 := by
  simp only [tailErr]
  split_ifs <;> simp_all

theorem tailErr_count (s : Hdr) (rest : List Nat) :
    Msg.wrongPixelCount ∈ tailErr s rest ↔ rest.length < pixelCount s.width s.height := by
  simp only [tailErr, List.length_take]
  split_ifs with h <;> simp_all

/-- C8, counterexample: the header declares the maximum colour value `4294967551`
(`2 ^ 32 + 255`), which is different from 255, and `loadPpm` writes no message about the
colour scale. -/
theorem max_color_counterexample :
    digitsVal (bytes "4294967551") = 4294967551 ∧ 4294967551 ≠ 255 ∧
    loadPpm (some (bytes "P6\n1 1\n4294967551\n" ++ [1, 2, 3]))
      = some ({ width := 1, height := 1, pixels := [1, 2, 3], max_color := 255 }, []) := by
  decide

/-- C8 (amended): for every file the image returned by `loadPpm` has `max_color` 255, and the
message about the colour scale is written if and only if the maximum colour value read by the
header loop, in `unsigned int` arithmetic, is different from 255. For a header `P6` whitespace
`W` whitespace `H` whitespace `M` and one whitespace byte that value is the decimal value of
`M` modulo `2 ^ 32`, and another run of digits `M2` in the place of `M` gives the same width,
height and pixel bytes; when the run is empty (the third whitespace run is followed by a byte
`c2` that is neither a digit, nor whitespace, nor `#`) the value is 0 and the message is
written. -/
theorem max_color_policy (s1 W s2 H s3 M M2 : List Nat) (c c2 : Nat) (payload : List Nat)
    (h1 : spaceRun s1) (h2 : spaceRun s2) (h3 : spaceRun s3)
    (hW : digitRun W) (hH : digitRun H) (hM : digitRun M) (hM2 : digitRun M2)
    (hc : isspace c = true)
    (hd2 : isdigit c2 = false) (hsp2 : isspace c2 = false) (hc2 : c2 ≠ 35) :
    (∀ file : List Nat, ∃ img msgs, loadPpm (some file) = some (img, msgs) ∧
      img.max_color = 255 ∧
      (Msg.unsupportedScale ∈ msgs ↔ (parseHeader file Hdr.init).1.max_color ≠ 255)) ∧
    (parseHeader (headerFile s1 W s2 H s3 M c payload) Hdr.init).1.max_color
      = digitsVal M % 2 ^ 32 ∧
    (∃ img msgs img2 msgs2,
      loadPpm (some (headerFile s1 W s2 H s3 M c payload)) = some (img, msgs) ∧
      loadPpm (some (headerFile s1 W s2 H s3 M2 c payload)) = some (img2, msgs2) ∧
      (Msg.unsupportedScale ∈ msgs ↔ digitsVal M % 2 ^ 32 ≠ 255) ∧
      img2.width = img.width ∧ img2.height = img.height ∧ img2.pixels = img.pixels) ∧
    (parseHeader (headerFile s1 W s2 H s3 [] c2 payload) Hdr.init).1.max_color = 0 ∧
    (∃ img msgs, loadPpm (some (headerFile s1 W s2 H s3 [] c2 payload)) = some (img, msgs) ∧
      Msg.unsupportedScale ∈ msgs) := by
  have hall : ∀ file : List Nat, ∃ img msgs, loadPpm (some file) = some (img, msgs) ∧
      img.max_color = 255 ∧
      (Msg.unsupportedScale ∈ msgs ↔ (parseHeader file Hdr.init).1.max_color ≠ 255) := by
    intro file
    refine ⟨_, _, loadPpm_eq file, rfl, ?_⟩
    rw [List.mem_append, tailErr_scale]
    constructor
    · rintro (h | h)
      · rcases parseHeader_err file _ h with h | h | h <;> exact absurd h (by decide)
      · exact h
    · exact fun h => Or.inr h
  obtain ⟨k, _, hk⟩ := parseHeader_headerFile s1 W s2 H s3 M c payload h1 h2 h3 hW hH hM hc
  obtain ⟨k2, _, hk2⟩ :=
    parseHeader_headerFile s1 W s2 H s3 M2 c payload h1 h2 h3 hW hH hM2 hc
  have hmax : (parseHeader (headerFile s1 W s2 H s3 M c payload) Hdr.init).1.max_color
      = digitsVal M % 2 ^ 32 := by rw [hk]; rfl
  have hzero := parseHeader_noMax s1 W s2 H s3 c2 payload h1 h2 h3 hW hH hd2 hsp2 hc2
  refine ⟨hall, hmax, ⟨_, _, _, _, loadPpm_eq _, loadPpm_eq _, ?_, ?_, ?_, ?_⟩, hzero, ?_⟩
  · obtain ⟨img, msgs, e, _, hiff⟩ := hall (headerFile s1 W s2 H s3 M c payload)
    rw [loadPpm_eq] at e
    simp only [Option.some.injEq, Prod.mk.injEq] at e
    rw [e.2, hiff, hmax]
  · rw [hk, hk2]
  · rw [hk, hk2]
  · rw [hk, hk2]
  · obtain ⟨img, msgs, e, _, hiff⟩ := hall (headerFile s1 W s2 H s3 [] c2 payload)
    exact ⟨img, msgs, e, hiff.mpr (by rw [hzero]; decide)⟩

/-- C8, witness: the maximum colour values `4294967551` and `255` in the header
`P6\n1 1\n...\n`, and the same header without a maximum colour value, ended by `x`. -/
theorem max_color_policy_witness :
    (spaceRun [10] ∧ spaceRun [32] ∧ digitRun (bytes "1") ∧ digitRun (bytes "4294967551") ∧
      digitRun (bytes "255") ∧ isspace 10 = true ∧
      isdigit 120 = false ∧ isspace 120 = false ∧ 120 ≠ 35) ∧
    (∀ file : List Nat, ∃ img msgs, loadPpm (some file) = some (img, msgs) ∧
      img.max_color = 255 ∧
      (Msg.unsupportedScale ∈ msgs ↔ (parseHeader file Hdr.init).1.max_color ≠ 255)) ∧
    (parseHeader (headerFile [10] (bytes "1") [32] (bytes "1") [10] (bytes "4294967551") 10
        [1, 2, 3]) Hdr.init).1.max_color = digitsVal (bytes "4294967551") % 2 ^ 32 ∧
    (∃ img msgs img2 msgs2,
      loadPpm (some (headerFile [10] (bytes "1") [32] (bytes "1") [10] (bytes "4294967551") 10
        [1, 2, 3])) = some (img, msgs) ∧
      loadPpm (some (headerFile [10] (bytes "1") [32] (bytes "1") [10] (bytes "255") 10
        [1, 2, 3])) = some (img2, msgs2) ∧
      (Msg.unsupportedScale ∈ msgs ↔ digitsVal (bytes "4294967551") % 2 ^ 32 ≠ 255) ∧
      img2.width = img.width ∧ img2.height = img.height ∧ img2.pixels = img.pixels) ∧
    (parseHeader (headerFile [10] (bytes "1") [32] (bytes "1") [10] [] 120 [1, 2, 3])
      Hdr.init).1.max_color = 0 ∧
    (∃ img msgs,
      loadPpm (some (headerFile [10] (bytes "1") [32] (bytes "1") [10] [] 120 [1, 2, 3]))
        = some (img, msgs) ∧
      Msg.unsupportedScale ∈ msgs) :=
  ⟨by decide,
    max_color_policy [10] (bytes "1") [32] (bytes "1") [10] (bytes "4294967551") (bytes "255")
      10 120 [1, 2, 3] (by decide) (by decide) (by decide) (by decide) (by decide) (by decide)
      (by decide) (by decide) (by decide) (by decide) (by decide)⟩

/-- C4, counterexample: the file `P6\n65536 65536\n255\n` declares width 65536 and height
65536 and ends right after the newline of its header, so fewer than `w * h * 3` bytes remain,
and `loadPpm` writes no message about the number of pixels. -/
theorem payload_underrun_counterexample :
    bytes "P6\n65536 65536\n255\n"
      = headerFile [10] (bytes "65536") [32] (bytes "65536") [10] (bytes "255") 10 [] ∧
    digitsVal (bytes "65536") = 65536 ∧
    ([] : List Nat).length < 65536 * 65536 * 3 ∧
    loadPpm (some (bytes "P6\n65536 65536\n255\n"))
      = some ({ width := 65536, height := 65536, pixels := [], max_color := 255 }, []) := by
  decide

/-- C4 (amended): for every file made of a header `P6` whitespace `W` whitespace `H`
whitespace `M` newline, where `W`, `H`, `M` are non-empty runs of digits, followed by the
bytes `payload`: with `w` and `h` the decimal values of `W` and `H` modulo `2 ^ 32`, `k` the
length of `payload` and `n = (w * h * 3) mod 2 ^ 32` the size computed in `unsigned int`,
`loadPpm` returns an image of width `w` and height `h`; when `k < n` it writes the message
about the number of pixels and the pixel sequence is the `k` bytes of `payload`; when `n ≤ k`
it writes no such message and the pixel sequence is the first `n` bytes of `payload`. -/
theorem payload_underrun (s1 W s2 H s3 M payload : List Nat)
    (h1 : spaceRun s1) (h2 : spaceRun s2) (h3 : spaceRun s3)
    (hW : digitRun W) (hH : digitRun H) (hM : digitRun M) :
    ∃ img msgs, loadPpm (some (headerFile s1 W s2 H s3 M 10 payload)) = some (img, msgs) ∧
      img.width = digitsVal W % 2 ^ 32 ∧ img.height = digitsVal H % 2 ^ 32 ∧
      (payload.length < (digitsVal W % 2 ^ 32 * (digitsVal H % 2 ^ 32) * 3) % 2 ^ 32 →
        Msg.wrongPixelCount ∈ msgs ∧ img.pixels = payload) ∧
      ((digitsVal W % 2 ^ 32 * (digitsVal H % 2 ^ 32) * 3) % 2 ^ 32 ≤ payload.length →
        Msg.wrongPixelCount ∉ msgs ∧
        img.pixels
          = payload.take ((digitsVal W % 2 ^ 32 * (digitsVal H % 2 ^ 32) * 3) % 2 ^ 32)) := by
  obtain ⟨k, h0, hk⟩ :=
    parseHeader_headerFile s1 W s2 H s3 M 10 payload h1 h2 h3 hW hH hM (by decide)
  have hk0 : k = 0 := h0 rfl
  subst hk0
  simp only [if_true, List.replicate_zero] at hk
  have hn : pixelCount (digitsVal W % UINT_MOD) (digitsVal H % UINT_MOD)
      = (digitsVal W % 2 ^ 32 * (digitsVal H % 2 ^ 32) * 3) % 2 ^ 32 := rfl
  refine ⟨_, _, loadPpm_eq _, ?_⟩
  rw [hk]
  simp only [List.nil_append]
  refine ⟨rfl, rfl, ?_, ?_⟩
  · intro hlt
    refine ⟨(tailErr_count _ _).mpr (by rw [hn]; exact hlt), ?_⟩
    rw [hn]
    exact List.take_of_length_le (by omega)
  · intro hle
    refine ⟨fun hmem => ?_, by rw [hn]⟩
    have hlt := (tailErr_count _ _).mp hmem
    rw [hn] at hlt
    omega

/-- C4, witness: the header `P6\n2 1\n255\n` of a 2 by 1 image (six pixel bytes) followed by
three bytes, then by seven bytes. -/
theorem payload_underrun_witness :
    (spaceRun [10] ∧ spaceRun [32] ∧ digitRun (bytes "2") ∧ digitRun (bytes "1") ∧
      digitRun (bytes "255")) ∧
    (headerFile [10] (bytes "2") [32] (bytes "1") [10] (bytes "255") 10 [1, 2, 3]
        = bytes "P6\n2 1\n255\n" ++ [1, 2, 3] ∧
      (digitsVal (bytes "2") % 2 ^ 32 * (digitsVal (bytes "1") % 2 ^ 32) * 3) % 2 ^ 32 = 6) ∧
    (∃ img msgs,
      loadPpm (some (headerFile [10] (bytes "2") [32] (bytes "1") [10] (bytes "255") 10
        [1, 2, 3])) = some (img, msgs) ∧
      img.width = 2 ∧ img.height = 1 ∧ Msg.wrongPixelCount ∈ msgs ∧ img.pixels = [1, 2, 3]) ∧
    (∃ img msgs,
      loadPpm (some (headerFile [10] (bytes "2") [32] (bytes "1") [10] (bytes "255") 10
        [1, 2, 3, 4, 5, 6, 7])) = some (img, msgs) ∧
      img.width = 2 ∧ img.height = 1 ∧ Msg.wrongPixelCount ∉ msgs ∧
      img.pixels = [1, 2, 3, 4, 5, 6]) := by
  refine ⟨by decide, by decide, ?_, ?_⟩
  · obtain ⟨img, msgs, e, hw, hh, hlt, _⟩ :=
      payload_underrun [10] (bytes "2") [32] (bytes "1") [10] (bytes "255") [1, 2, 3]
        (by decide) (by decide) (by decide) (by decide) (by decide) (by decide)
    exact ⟨img, msgs, e, hw, hh, hlt (by decide)⟩
  · obtain ⟨img, msgs, e, hw, hh, _, hle⟩ :=
      payload_underrun [10] (bytes "2") [32] (bytes "1") [10] (bytes "255")
        [1, 2, 3, 4, 5, 6, 7] (by decide) (by decide) (by decide) (by decide) (by decide)
        (by decide)
    exact ⟨img, msgs, e, hw, hh, hle (by decide)⟩

/-! ## The magic number (C7, C10) -/

/-- C7: for every file that starts with `P6` and on which `loadPpm` returns the image `img`
and the messages `msgs`, the file with the first two bytes replaced by `a`, `b` (not `P6`,
`a` neither `#` nor newline; `P5` for instance) gives the same image, hence the same width,
height and pixel bytes, and the same messages after one more message, the one about the
magic number. -/
theorem bad_magic_best_effort (a b : Nat) (rest : List Nat) (img : ppm_t) (msgs : List Msg)
    (ha : a ≠ 35) (ha2 : a ≠ 10) (hab : ¬ (a = 80 ∧ b = 54))
    (h : loadPpm (some (80 :: 54 :: rest)) = some (img, msgs)) :
    loadPpm (some (a :: b :: rest)) = some (img, Msg.badMagic :: msgs) := by
  have e1 : parseHeader (80 :: 54 :: rest) Hdr.init
      = parseHeader rest ⟨.WHITESPACE1, 0, 0, 0, []⟩ := parseHeader_P6 rest
  have e2 : parseHeader (a :: b :: rest) Hdr.init
      = ((parseHeader rest ⟨.WHITESPACE1, 0, 0, 0, []⟩).1.pre [Msg.badMagic],
          (parseHeader rest ⟨.WHITESPACE1, 0, 0, 0, []⟩).2) := by
    rw [parseHeader_magic a b rest _ ha ha2 rfl, afterMagic_init, ← parseHeader_pre]
    simp [magicErr, hab, Hdr.pre]
  rw [loadPpm_eq, e1] at h
  rw [loadPpm_eq, e2]
  simp only [Option.some.injEq, Prod.mk.injEq] at h
  rw [← h.1, ← h.2]
  simp [Hdr.pre, tailErr]

/-- C7, witness: `P5` in the place of `P6` in a 1 by 1 image. -/
theorem bad_magic_best_effort_witness :
    ((80 : Nat) ≠ 35 ∧ (80 : Nat) ≠ 10 ∧ ¬ ((80 : Nat) = 80 ∧ (53 : Nat) = 54)) ∧
    loadPpm (some (80 :: 54 :: (bytes "\n1 1\n255\n" ++ [10, 20, 30])))
      = some ({ width := 1, height := 1, pixels := [10, 20, 30], max_color := 255 }, []) ∧
    loadPpm (some (80 :: 53 :: (bytes "\n1 1\n255\n" ++ [10, 20, 30])))
      = some ({ width := 1, height := 1, pixels := [10, 20, 30], max_color := 255 },
          [Msg.badMagic]) :=
  ⟨by decide, by decide,
    bad_magic_best_effort 80 53 (bytes "\n1 1\n255\n" ++ [10, 20, 30]) _ _ (by decide)
      (by decide) (by decide) (by decide)⟩

/-- C10, the failing input: on the empty file `loadPpm` returns an image and writes only the
message about the colour scale; the message about the magic number is missing. -/
theorem empty_file_no_bad_magic :
    loadPpm (some [])
      = some ({ width := 0, height := 0, pixels := [], max_color := 255 },
          [Msg.unsupportedScale]) ∧
    Msg.badMagic ∉ [Msg.unsupportedScale] := by
  decide

theorem badMagic_not_mem_tailErr (s : Hdr) (rest : List Nat) :
    Msg.badMagic ∉ tailErr s rest := by
  simp only [tailErr]
  split_ifs <;> simp

/-- After the magic number the header loop never writes the message about the magic
number. -/
theorem badMagic_after_magic (bs : List Nat) (s : Hdr) (hs : s.sect ≠ .MAGIC_NUMBER) :
    Msg.badMagic ∈ (parseHeader bs s).1.err ↔ Msg.badMagic ∈ s.err := by
  obtain ⟨x, h1, h2⟩ := headerLoop_err bs.length bs s
  rw [parseHeader, h1, List.mem_append]
  constructor
  · rintro (h | h)
    · exact h
    · rcases h2 _ h with h | h
      · exact absurd h (by decide)
      · exact absurd h.2 hs
  · exact fun h => Or.inl h

/-- On every non-empty file without a `#` the message about the magic number is written if
and only if the file has fewer than two bytes or does not start with `P6`, and an image is
returned in every case (the part of C10 that the code satisfies). -/
theorem bad_magic_detection_nonempty (file : List Nat) (hne : file ≠ [])
    (hhash : 35 ∉ file) :
    ∃ img msgs, loadPpm (some file) = some (img, msgs) ∧
      (Msg.badMagic ∈ msgs ↔
        (file.length < 2 ∨ ¬ (file.getD 0 0 = 80 ∧ file.getD 1 0 = 54))) := by
  refine ⟨_, _, loadPpm_eq file, ?_⟩
  rw [List.mem_append]
  cases file with
  | nil => exact absurd rfl hne
  | cons a rest =>
    have ha : a ≠ 35 := fun h => hhash (by simp [h])
    have hbad : ({ Hdr.init.warn .badMagic with sect := .WHITESPACE1 } : Hdr).sect
        ≠ .MAGIC_NUMBER := by decide
    by_cases ha10 : a = 10
    · subst ha10
      have hg : getline (10 :: rest) = some ([10], rest) := by simp [getline]
      rw [parseHeader_line _ _ _ _ (by decide) hg,
        runLine_magic_single 10 _ (by decide) rfl, badMagic_after_magic _ _ hbad]
      simp [Hdr.warn, Hdr.init]
    · cases rest with
      | nil =>
        have hg : getline [a] = some ([a], []) := by simp [getline, ha10]
        rw [parseHeader_line _ _ _ _ (by decide) hg,
          runLine_magic_single a _ ha rfl, badMagic_after_magic _ _ hbad]
        simp [Hdr.warn, Hdr.init]
      | cons b rest =>
        rw [parseHeader_magic a b rest _ ha ha10 rfl, afterMagic_init,
          badMagic_after_magic _ _ (by simp)]
        simp only [magicErr, List.length_cons, List.getD_cons_zero, List.getD_cons_succ]
        constructor
        · rintro (h | h)
          · right
            intro hab
            simp [hab] at h
          · exact absurd h (badMagic_not_mem_tailErr _ _)
        · rintro (h | h)
          · omega
          · left
            simp [h]

/-- The theorem `bad_magic_detection_nonempty` at the file `P5\n1 1\n255\n` and pixel bytes. -/
theorem bad_magic_detection_nonempty_witness :
    ∃ img msgs, loadPpm (some (bytes "P5\n1 1\n255\n" ++ [1, 2, 3])) = some (img, msgs) ∧
      (Msg.badMagic ∈ msgs ↔
        ((bytes "P5\n1 1\n255\n" ++ [1, 2, 3]).length < 2 ∨
          ¬ ((bytes "P5\n1 1\n255\n" ++ [1, 2, 3]).getD 0 0 = 80 ∧
            (bytes "P5\n1 1\n255\n" ++ [1, 2, 3]).getD 1 0 = 54))) :=
  bad_magic_detection_nonempty _ (by decide) (by decide)

/-! ## Comment lines (C5) -/

theorem afterLine_body (body : List Nat) : ∀ (bs : List Nat), 10 ∉ body →
    afterLine (body ++ 10 :: bs) = bs := by
  induction body with
  | nil => intro bs _; simp [afterLine, getline]
  | cons x body ih =>
    intro bs h
    have hx : x ≠ 10 := fun hx => h (by simp [hx])
    have hb : 10 ∉ body := fun hb => h (by simp [hb])
    have := ih bs hb
    rw [List.cons_append]
    unfold afterLine at this ⊢
    rw [getline_cons x _ hx]
    simpa [afterLine] using this

/-- A comment line is skipped in every section but `END`. -/
theorem parseHeader_comment (body bs : List Nat) (s : Hdr) (hs : s.sect ≠ .END)
    (hb : 10 ∉ body) : parseHeader (comment body ++ bs) s = parseHeader bs s := by
  have e : comment body ++ bs = 35 :: (body ++ 10 :: bs) := by simp [comment]
  rw [e, parseHeader_hash _ _ hs, afterLine_body body bs hb]

/-- A comment line inside or next to a run of whitespace `u ... ` that follows the magic
number, the width or the height. -/
theorem parseHeader_insert (u body bs : List Nat) (s : Hdr)
    (hs : s.sect.isWs = true ∨ (s.sect.isNum = true ∧ s.sect.succ.isWs = true))
    (hu : ∀ x ∈ u, isspace x = true) (hb : 10 ∉ body) :
    parseHeader (u ++ (comment body ++ bs)) s = parseHeader (u ++ bs) s := by
  rcases hs with hs | ⟨hs, hn⟩
  · rw [parseHeader_skip u _ s hs hu, parseHeader_skip u _ s hs hu,
      parseHeader_comment body bs s (isWs_ne _ hs).2.1 hb]
  · by_cases hne : u = []
    · subst hne
      exact parseHeader_comment body bs s (isNum_ne _ hs).2.1 hb
    · rw [parseHeader_sep u _ s hs hu hne, parseHeader_sep u _ s hs hu hne,
        parseHeader_skip u _ _ hn hu, parseHeader_skip u _ _ hn hu,
        parseHeader_comment body bs _ (isNum_ne _ hs).2.2 hb]

/-- C5: take a header `P6` `s1` `W` `s2` `H` `s3` followed by the maximum colour field, one
more byte and the payload, where `W` and `H` are non-empty runs of digits and `s1`, `s2` are
non-empty runs of whitespace, and write one of the three whitespace runs as `u ++ v` (`u`
whitespace, possibly empty; `v` the rest of the run). A comment line (`#`, bytes other than
newline, newline) inserted between `u` and `v`, that is at any byte position between two
header fields, does not change what `loadPpm` returns: the same width, height, `max_color`,
pixel bytes and messages. -/
theorem comment_line_tolerance (u v s1 W s2 H s3 M : List Nat) (c : Nat)
    (payload body : List Nat)
    (hu : ∀ x ∈ u, isspace x = true) (h1 : spaceRun s1) (h2 : spaceRun s2)
    (hW : digitRun W) (hH : digitRun H) (hb : 10 ∉ body) :
    loadPpm (some (headerFile (u ++ comment body ++ v) W s2 H s3 M c payload))
      = loadPpm (some (headerFile (u ++ v) W s2 H s3 M c payload)) ∧
    loadPpm (some (headerFile s1 W (u ++ comment body ++ v) H s3 M c payload))
      = loadPpm (some (headerFile s1 W (u ++ v) H s3 M c payload)) ∧
    loadPpm (some (headerFile s1 W s2 H (u ++ comment body ++ v) M c payload))
      = loadPpm (some (headerFile s1 W s2 H (u ++ v) M c payload)) := by
  refine ⟨?_, ?_, ?_⟩
  · have e : parseHeader (headerFile (u ++ comment body ++ v) W s2 H s3 M c payload) Hdr.init
        = parseHeader (headerFile (u ++ v) W s2 H s3 M c payload) Hdr.init := by
      rw [headerFile_eq, headerFile_eq, parseHeader_P6, parseHeader_P6]
      simp only [List.append_assoc]
      exact parseHeader_insert u body _ _ (Or.inl rfl) hu hb
    rw [loadPpm_eq, loadPpm_eq, e]
  · have e : parseHeader (headerFile s1 W (u ++ comment body ++ v) H s3 M c payload) Hdr.init
        = parseHeader (headerFile s1 W (u ++ v) H s3 M c payload) Hdr.init := by
      rw [headerFile_eq, headerFile_eq, parseHeader_to_width s1 W _ h1 hW,
        parseHeader_to_width s1 W _ h1 hW]
      simp only [List.append_assoc]
      exact parseHeader_insert u body _ _ (Or.inr ⟨rfl, rfl⟩) hu hb
    rw [loadPpm_eq, loadPpm_eq, e]
  · have e : parseHeader (headerFile s1 W s2 H (u ++ comment body ++ v) M c payload) Hdr.init
        = parseHeader (headerFile s1 W s2 H (u ++ v) M c payload) Hdr.init := by
      rw [headerFile_eq, headerFile_eq, parseHeader_to_height s1 W s2 H _ h1 h2 hW hH,
        parseHeader_to_height s1 W s2 H _ h1 h2 hW hH]
      simp only [List.append_assoc]
      exact parseHeader_insert u body _ _ (Or.inr ⟨rfl, rfl⟩) hu hb
    rw [loadPpm_eq, loadPpm_eq, e]

/-- C5, witness: the scenario of the specification, a comment line after `P6` and its
newline. -/
theorem comment_line_tolerance_witness :
    ((∀ x ∈ [10], isspace x = true) ∧ spaceRun [10] ∧ spaceRun [32] ∧ digitRun (bytes "1") ∧
      10 ∉ bytes "comment") ∧
    headerFile ([10] ++ comment (bytes "comment") ++ []) (bytes "1") [32] (bytes "1") [10]
        (bytes "255") 10 [10, 20, 30]
      = bytes "P6\n#comment\n1 1\n255\n" ++ [10, 20, 30] ∧
    loadPpm (some (headerFile ([10] ++ comment (bytes "comment") ++ []) (bytes "1") [32]
        (bytes "1") [10] (bytes "255") 10 [10, 20, 30]))
      = loadPpm (some (headerFile ([10] ++ []) (bytes "1") [32] (bytes "1") [10]
        (bytes "255") 10 [10, 20, 30])) ∧
    loadPpm (some (bytes "P6\n#comment\n1 1\n255\n" ++ [10, 20, 30]))
      = some ({ width := 1, height := 1, pixels := [10, 20, 30], max_color := 255 }, []) :=
  ⟨by decide, by decide,
    (comment_line_tolerance [10] [] [10] (bytes "1") [32] (bytes "1") [10] (bytes "255") 10
      [10, 20, 30] (bytes "comment") (by decide) (by decide) (by decide) (by decide)
      (by decide) (by decide)).1,
    by decide⟩

/-! ## Writing and reading back (C1), the start of the payload (C3) -/

/-- C1, counterexample: `bigImage` is a valid record (its pixel sequence has
`width * height * 3` bytes), `writePpm` writes none of its pixel bytes because the size
`65536 * 65536 * 3` is 0 in `unsigned int`, and `loadPpm` on the written file returns an
image with an empty pixel sequence. -/
theorem round_trip_counterexample :
    bigImage.pixels.length = bigImage.width * bigImage.height * 3 ∧
    bigImage.pixels ≠ [] ∧
    loadPpm (some (writePpm bigImage).1)
      = some ({ width := 65536, height := 65536, pixels := [], max_color := 255 }, []) := by
  have hlen : bigImage.pixels.length = 65536 * 65536 * 3 := List.length_replicate _ _
  refine ⟨hlen, ?_, ?_⟩
  · intro h
    rw [h] at hlen
    exact absurd hlen (by decide)
  · have hw : (writePpm bigImage).1
        = bytes "P6\n#Created with ppmview: euank@euank.com\n65536 65536\n255\n" := by
      have hn : pixelCount bigImage.width bigImage.height = 0 := by decide
      simp only [writePpm, hn, List.take_zero, List.append_nil]
      decide
    rw [hw]
    decide

/-- The conversion `%d` in `writePpm`: an image of width `2 ^ 31` and height 0 (no pixel
bytes) is written with the width `-2147483648` and read back with width 0; the line `255`
of the written header is left unread. -/
theorem writePpm_negative_width :
    (writePpm { width := 2147483648, height := 0, pixels := [], max_color := 255 }).1
      = bytes "P6\n#Created with ppmview: euank@euank.com\n-2147483648 0\n255\n" ∧
    (loadPpm (some
        (writePpm { width := 2147483648, height := 0, pixels := [], max_color := 255 }).1)).map
        (fun r => (r.1.width, r.1.height, r.1.pixels))
      = some (0, 0, []) := by
  decide

theorem writePpm_file (r : ppm_t) (hw : r.width < 2 ^ 31) (hh : r.height < 2 ^ 31) :
    (writePpm r).1
      = 80 :: 54 :: ([10] ++ (comment (bytes "Created with ppmview: euank@euank.com")
          ++ (decimal r.width ++ ([32] ++ (decimal r.height ++ ([10] ++ ([50, 53, 53]
          ++ 10 :: r.pixels.take (pixelCount r.width r.height)))))))) := by
  have h1 : bytes "P6\n#Created with ppmview: euank@euank.com\n"
      = 80 :: 54 :: ([10] ++ comment (bytes "Created with ppmview: euank@euank.com")) := by
    decide
  have h2 : fmt_d 255 = [50, 53, 53] := by decide
  have h3 : fmt_d r.width = decimal r.width := by
    simp only [fmt_d]; rw [if_pos (by omega)]
  have h4 : fmt_d r.height = decimal r.height := by
    simp only [fmt_d]; rw [if_pos (by omega)]
  simp only [writePpm, h1, h2, h3, h4]
  simp

/-- C1 (amended): for every valid image record (`pixels.length = width * height * 3`) with
width and height below `2 ^ 31` and `width * height * 3` below `2 ^ 32`, `writePpm` reports
no error and `loadPpm` on the written bytes returns the same width, the same height,
`max_color` 255 and the same pixel bytes, and writes nothing to `stderr`. -/
theorem round_trip (r : ppm_t) (hw : r.width < 2 ^ 31) (hh : r.height < 2 ^ 31)
    (hsize : r.width * r.height * 3 < 2 ^ 32)
    (hp : r.pixels.length = r.width * r.height * 3) :
    (writePpm r).2 = [] ∧
    loadPpm (some (writePpm r).1)
      = some ({ width := r.width, height := r.height, pixels := r.pixels, max_color := 255 },
          []) := by
  have hn : pixelCount r.width r.height = r.width * r.height * 3 := Nat.mod_eq_of_lt hsize
  have ht : r.pixels.take (r.width * r.height * 3) = r.pixels :=
    List.take_of_length_le (by omega)
  have e : parseHeader (writePpm r).1 Hdr.init
      = parseHeader (canonicalFile r.width r.height r.pixels) Hdr.init := by
    rw [writePpm_file r hw hh, canonicalFile_eq, parseHeader_P6, parseHeader_P6, hn, ht]
    exact parseHeader_insert [10] _ _ _ (Or.inl rfl) (by decide) (by decide)
  refine ⟨by simp [writePpm, hn, ht, hp], ?_⟩
  rw [loadPpm_eq, e, ← loadPpm_eq]
  exact loadPpm_canonical r.width r.height r.pixels (by omega) (by omega) hsize hp

/-- C1, witness: a 2 by 1 image. -/
theorem round_trip_witness :
    (smallImage.width < 2 ^ 31 ∧ smallImage.height < 2 ^ 31 ∧
      smallImage.width * smallImage.height * 3 < 2 ^ 32 ∧
      smallImage.pixels.length = smallImage.width * smallImage.height * 3) ∧
    (writePpm smallImage).2 = [] ∧
    loadPpm (some (writePpm smallImage).1)
      = some ({ width := smallImage.width, height := smallImage.height,
                pixels := smallImage.pixels, max_color := 255 }, []) :=
  ⟨by decide, round_trip smallImage (by decide) (by decide) (by decide) (by decide)⟩

/-- C3, the failing input: the header `P6\n1 1\n255` ends with a space, and the three pixel
bytes 7, 8, 9 follow. The `for` loop goes on in section `END` over the three bytes, which
`getline` has taken from the file with the line of the space: "Unexpected end of the world"
is written three times, no byte is left for the payload and the pixel sequence is empty. -/
theorem payload_start_failing_input :
    parseHeader (bytes "P6\n1 1\n255 " ++ [7, 8, 9]) Hdr.init
      = (⟨.END, 1, 1, 255, [Msg.unexpectedEnd, Msg.unexpectedEnd, Msg.unexpectedEnd]⟩, []) ∧
    loadPpm (some (bytes "P6\n1 1\n255 " ++ [7, 8, 9]))
      = some ({ width := 1, height := 1, pixels := [], max_color := 255 },
          [Msg.unexpectedEnd, Msg.unexpectedEnd, Msg.unexpectedEnd, Msg.wrongPixelCount]) := by
  decide

/-- When the byte after the maximum colour value is a newline, the case `END` is never
executed and the payload is what follows that newline (the part of C3 that the code
satisfies). -/
theorem payload_start_newline (s1 W s2 H s3 M : List Nat) (payload : List Nat)
    (h1 : spaceRun s1) (h2 : spaceRun s2) (h3 : spaceRun s3)
    (hW : digitRun W) (hH : digitRun H) (hM : digitRun M) :
    (parseHeader (headerFile s1 W s2 H s3 M 10 payload) Hdr.init).2 = payload ∧
    Msg.unexpectedEnd ∉ (parseHeader (headerFile s1 W s2 H s3 M 10 payload) Hdr.init).1.err := by
  obtain ⟨k, h0, hk⟩ :=
    parseHeader_headerFile s1 W s2 H s3 M 10 payload h1 h2 h3 hW hH hM (by decide)
  rw [hk, h0 rfl]
  simp

/-- The theorem `payload_start_newline` at the header `P6\n1 1\n255\n`. -/
theorem payload_start_newline_witness :
    (parseHeader (headerFile [10] (bytes "1") [32] (bytes "1") [10] (bytes "255") 10
      [7, 8, 9]) Hdr.init).2 = [7, 8, 9] ∧
    Msg.unexpectedEnd ∉ (parseHeader (headerFile [10] (bytes "1") [32] (bytes "1") [10]
      (bytes "255") 10 [7, 8, 9]) Hdr.init).1.err :=
  payload_start_newline [10] (bytes "1") [32] (bytes "1") [10] (bytes "255") [7, 8, 9]
    (by decide) (by decide) (by decide) (by decide) (by decide) (by decide)

end Ppm
